import Mathlib

/-!
# Verification of the tcg-sim card-game engine

A shallow embedding of the `engine` crate of the tcg-sim repository:
the card / fragment model (`card.rs`, `creature.rs`, `tappable.rs`) and
the match state machine (`game.rs`).

Modelling conventions:
* Rust `Vec<T>` is `List T`; `Vec::push` appends at the end, `Vec::pop`
  removes the last element, `Vec::remove(i)` is `List.eraseIdx`.
* `HashMap<CardFragmentKind, Box<dyn Fragment>>` is an association list
  `List (CardFragmentKind × Fragment)`; the fragment trait object is the
  closed sum of the two fragment structs that exist in the crate.
* `HashMap<usize, usize>` (the blocking map) is an association list with
  replace-or-append insertion.
* The five per-player zones (always present, `Player::new` populates all
  of them and no code removes a key) are the five list fields of `Player`.
* Machine integers: `u8`/`u32`/`usize` counts become `Nat`; `i32` life and
  damage become `Int` (the magnitudes reachable here are far below 2^31,
  so wrap-around is not modelled).
* `GameState::step` can panic in Rust exactly at `players[current_player_index]`
  indexing and at `% players.len()`; the embedding `stepGame` returns
  `Option GameState` with `none` at precisely those spots.
* `thread_rng` shuffling is nondeterministic; `Player.new` takes the
  already-shuffled library as a parameter, and theorems about match
  construction assume it is a permutation of the deck.
-/

namespace TcgSim

/-- `CardType` from `card.rs`. -/
inductive CardType where
  | Land
  | Creature
deriving DecidableEq, Repr

/-- `CreatureStats` from `card.rs` (`power`, `toughness` are `u8`). -/
structure CreatureStats where
  power : Nat
  toughness : Nat
deriving DecidableEq, Repr

/-- `CardFragmentKind` from `card.rs`. -/
inductive CardFragmentKind where
  | Creature
  | Tappable
deriving DecidableEq, Repr

/-- `CreatureFragment` from `card.rs`. -/
structure CreatureFragment where
  stats : CreatureStats
  summoning_sickness : Bool
deriving DecidableEq, Repr

/-- `TappableFragment` from `card.rs`. -/
structure TappableFragment where
  tapped : Bool
deriving DecidableEq, Repr

/-- The closed sum of the `Fragment` implementations in the crate
(`Box<dyn Fragment>` can only hold these two). -/
inductive Fragment where
  | creature (cf : CreatureFragment)
  | tappable (tf : TappableFragment)
deriving DecidableEq, Repr

/-- `Card` from `card.rs`; `fragments` is the `HashMap<CardFragmentKind, Box<dyn Fragment>>`. -/
structure Card where
  name : String
  card_types : List CardType
  cost : Nat
  fragments : List (CardFragmentKind × Fragment)
deriving DecidableEq, Repr

instance : Inhabited Card := ⟨⟨"", [], 0, []⟩⟩

/-- `HashMap::get` on the fragment map. -/
def fragGet (c : Card) (k : CardFragmentKind) : Option Fragment :=
  (c.fragments.find? fun e => e.1 == k).map (·.2)

/-- `Card::is_type` from `card.rs`. -/
def is_type (c : Card) (t : CardType) : Bool :=
  c.card_types.any fun ct => ct == t

/-- `creature::is_creature`: tagged Creature OR carries a creature-kind fragment. -/
def is_creature (c : Card) : Bool :=
  (c.card_types.any fun ct => ct == CardType.Creature) ||
    (c.fragments.any fun e => e.1 == CardFragmentKind.Creature)

/-- `creature::creature_stats`: reads the creature fragment, `None` if the
entry is absent or (after downcast) not a `CreatureFragment`. -/
def creature_stats (c : Card) : Option CreatureStats :=
  (fragGet c CardFragmentKind.Creature).bind fun f =>
    match f with
    | Fragment.creature cf => some cf.stats
    | _ => none

/-- `tappable::is_tapped`: `false` when the fragment is absent or not a
`TappableFragment`. -/
def is_tapped (c : Card) : Bool :=
  match fragGet c CardFragmentKind.Tappable with
  | some (Fragment.tappable tf) => tf.tapped
  | _ => false

/-- `HashMap::get_mut` followed by a fragment mutation: update the entry
stored under key `k` in place. -/
def fragUpdate (c : Card) (k : CardFragmentKind) (f : Fragment → Fragment) : Card :=
  { c with fragments := c.fragments.map fun e => if e.1 == k then (e.1, f e.2) else e }

/-- `tappable::set_tapped`: mutates the tappable fragment in place; a no-op
when it is absent or the stored fragment does not downcast to
`TappableFragment`. -/
def set_tapped (c : Card) (v : Bool) : Card :=
  fragUpdate c CardFragmentKind.Tappable fun fr =>
    match fr with
    | Fragment.tappable _ => Fragment.tappable ⟨v⟩
    | f => f

/-- Modelled from the spec: `creature::set_summoning_sickness` is called by
`game.rs` but missing from the snapshot of `creature.rs` under `src/`;
§4.2 of the spec says it "is a no-op if no creature fragment is present",
otherwise it sets the `summoning_sickness` flag of the creature fragment. -/
def set_summoning_sickness (c : Card) (v : Bool) : Card :=
  fragUpdate c CardFragmentKind.Creature fun fr =>
    match fr with
    | Fragment.creature cf => Fragment.creature { cf with summoning_sickness := v }
    | f => f

/-- Modelled from the spec: `creature::has_summoning_sickness` is called by
`game.rs` but missing from the snapshot of `creature.rs` under `src/`;
it reads the `summoning_sickness` flag of the creature fragment, treating
a card without one as not sick (sickness only restricts creature fragments,
§4.2 / glossary of the spec). -/
def has_summoning_sickness (c : Card) : Bool :=
  match fragGet c CardFragmentKind.Creature with
  | some (Fragment.creature cf) => cf.summoning_sickness
  | _ => false

/-- Attacker/blocker power as used by `game.rs`:
`creature_stats(card).map(|s| s.power as i32).unwrap_or(0)`. -/
def powerOf (c : Card) : Int :=
  ((creature_stats c).map fun s => (s.power : Int)).getD 0

/-- Attacker/blocker toughness as used by `game.rs`:
`creature_stats(card).map(|s| s.toughness as i32).unwrap_or(0)`. -/
def toughnessOf (c : Card) : Int :=
  ((creature_stats c).map fun s => (s.toughness : Int)).getD 0

/-- `Deck` from `card.rs`. -/
structure Deck where
  cards : List Card
deriving DecidableEq, Repr

/-- `forest()` from `card.rs`. -/
def forest : Card :=
  { name := "Forest"
    card_types := [CardType.Land]
    cost := 0
    fragments := [(CardFragmentKind.Tappable, Fragment.tappable ⟨false⟩)] }

/-- `grizzly_bears()` from `card.rs`. -/
def grizzly_bears : Card :=
  { name := "Grizzly Bears"
    card_types := [CardType.Creature]
    cost := 2
    fragments :=
      [(CardFragmentKind.Creature, Fragment.creature ⟨⟨2, 2⟩, false⟩),
       (CardFragmentKind.Tappable, Fragment.tappable ⟨false⟩)] }

/-- `Player` from `game.rs`; the five zones of the `zones` map (all created
by `Player::new`, none ever removed) are the five list fields. -/
structure Player where
  life : Int
  library : List Card
  hand : List Card
  battlefield : List Card
  graveyard : List Card
  exile : List Card
deriving DecidableEq, Repr

instance : Inhabited Player := ⟨⟨20, [], [], [], [], []⟩⟩

/-- `GameStep` from `game.rs`. -/
inductive GameStep where
  | StartTurn
  | Untap
  | Upkeep
  | Draw
  | Main
  | DeclareAttackers
  | DeclareBlockers
  | AssignDamage
  | EndTurn
  | GameOver
deriving DecidableEq, Repr

/-- `GameState` from `game.rs`; `blocking_map` (a `HashMap<usize, usize>`
from blocker index to attacker index) is an association list. -/
structure GameState where
  players : List Player
  current_player_index : Nat
  turns : Nat
  step : GameStep
  attacking_creatures : List Nat
  blocking_map : List (Nat × Nat)
  auto_play : Bool
  waiting_for_main_decision : Bool
  waiting_for_attack_decision : Bool
  waiting_for_block_decision : Bool
deriving DecidableEq, Repr

/-- `HashMap::insert` on the blocking map: replace the binding of an existing
key, otherwise add a new one. -/
def mapInsert (m : List (Nat × Nat)) (k v : Nat) : List (Nat × Nat) :=
  if m.any fun e => e.1 == k then
    m.map fun e => if e.1 == k then (k, v) else e
  else
    m ++ [(k, v)]

/-- `Vec::pop`: removes and returns the last element. -/
def popBack : List α → Option (α × List α)
  | [] => none
  | [x] => some (x, [])
  | x :: y :: xs => (popBack (y :: xs)).map fun p => (p.1, x :: p.2)

/-- `Vec::remove(i)` guarded by the caller, as an in-place modification map. -/
def listModify : List α → Nat → (α → α) → List α
  | [], _, _ => []
  | x :: xs, 0, f => f x :: xs
  | x :: xs, n + 1, f => x :: listModify xs n f

/-- `hand.iter().position(q)` followed by `hand.remove(pos)`:
the first element satisfying `q` together with the remaining list. -/
def extractFirst (q : α → Bool) : List α → Option (α × List α)
  | [] => none
  | x :: xs =>
      if q x then some (x, xs)
      else (extractFirst q xs).map fun p => (p.1, x :: p.2)

/-- `players[current_player_index]` (panics in Rust when out of bounds). -/
def GameState.currentPlayer? (s : GameState) : Option Player :=
  s.players.get? s.current_player_index

/-- Writing back the active player's record after mutating it. -/
def GameState.setCurrent (s : GameState) (p : Player) : GameState :=
  { s with players := s.players.set s.current_player_index p }

/-- The Untap arm: untap every tapped card on the active player's battlefield. -/
def untapPhase (p : Player) : Player :=
  { p with battlefield := p.battlefield.map fun c =>
      if is_tapped c then set_tapped c false else c }

/-- The Upkeep arm: clear summoning sickness on the active player's battlefield. -/
def upkeepPhase (p : Player) : Player :=
  { p with battlefield := p.battlefield.map fun c => set_summoning_sickness c false }

/-- Main arm, first half: move the first Land-tagged card (if any) from hand
to battlefield. -/
def playLand (p : Player) : Player :=
  match extractFirst (fun c => is_type c CardType.Land) p.hand with
  | none => p
  | some (c, hand') => { p with hand := hand', battlefield := p.battlefield ++ [c] }

/-- Untapped Land-tagged battlefield cards counted as available mana. -/
def availableMana (bf : List Card) : Nat :=
  (bf.filter fun c => is_type c CardType.Land && !is_tapped c).length

/-- Tap the first `need` untapped lands, in battlefield order (the payment
loop of the Main arm; tapping a card without a tappable fragment is a no-op
but still consumes payment budget, exactly as in the source). -/
def tapLands : Nat → List Card → List Card
  | _, [] => []
  | 0, bf => bf
  | need + 1, c :: cs =>
      if is_type c CardType.Land && !is_tapped c then
        set_tapped c true :: tapLands need cs
      else
        c :: tapLands (need + 1) cs

/-- Main arm, casting loop. Each iteration recounts the available mana, finds
the first affordable creature in hand, removes it, marks summoning sickness,
taps `cost` lands and pushes it onto the battlefield. The Rust `loop`
terminates because every iteration removes one card from the hand, so
running it with `fuel = hand.length` reproduces it exactly. -/
def castLoop : Nat → Player → Player
  | 0, p => p
  | fuel + 1, p =>
      let mana := availableMana p.battlefield
      match extractFirst (fun c => is_creature c && decide (c.cost ≤ mana)) p.hand with
      | none => p
      | some (card, hand') =>
          let card' := set_summoning_sickness card true
          castLoop fuel
            { p with hand := hand'
                     battlefield := tapLands card'.cost p.battlefield ++ [card'] }

/-- The whole auto-play Main arm on the active player. -/
def mainPhase (p : Player) : Player :=
  let p1 := playLand p
  castLoop p1.hand.length p1

/-- DeclareAttackers arm: positions of Creature-tagged, non-sick, untapped
battlefield cards, in battlefield order (the `enumerate` loop of the source,
written over the index range). -/
def attackerIndices (bf : List Card) : List Nat :=
  (List.range bf.length).filter fun i =>
    is_type (bf.getD i default) CardType.Creature &&
      !has_summoning_sickness (bf.getD i default) && !is_tapped (bf.getD i default)

/-- DeclareAttackers arm: tap every (valid) attacker position. -/
def tapAtIndices (bf : List Card) (idxs : List Nat) : List Card :=
  idxs.foldl
    (fun b i => if i < b.length then listModify b i (fun c => set_tapped c true) else b) bf

/-- DeclareBlockers inner loop: the first battlefield position that is not
already used, not an attacker, and whose power meets the given toughness
(the `enumerate`-and-`break` scan of the source, written over the index
range). -/
def findBlockerFor (bf : List Card) (attackers used : List Nat) (tough : Int) : Option Nat :=
  (List.range bf.length).find? fun j =>
    !used.contains j && !attackers.contains j && decide (tough ≤ powerOf (bf.getD j default))

/-- DeclareBlockers outer loop over the stored attackers, accumulating
`(blocker, attacker)` decisions and the set of consumed blockers. -/
def blockDecisionsGo (bf : List Card) (allAtk : List Nat) :
    List Nat → List Nat → List (Nat × Nat) → List (Nat × Nat)
  | [], _, acc => acc
  | a :: rest, used, acc =>
      if bf.length ≤ a then blockDecisionsGo bf allAtk rest used acc
      else
        let tough := toughnessOf (bf.getD a default)
        match findBlockerFor bf allAtk used tough with
        | none => blockDecisionsGo bf allAtk rest used acc
        | some j => blockDecisionsGo bf allAtk rest (used ++ [j]) (acc ++ [(j, a)])

/-- The decisions of the auto-play DeclareBlockers arm. -/
def blockDecisions (bf : List Card) (attackers : List Nat) : List (Nat × Nat) :=
  blockDecisionsGo bf attackers attackers [] []

/-- `blocking_map.iter().find(|(_, atk)| **atk == a)`: the first blocker
recorded against attacker `a`. -/
def blockedBy (m : List (Nat × Nat)) (a : Nat) : Option Nat :=
  (m.find? fun e => e.2 == a).map (·.1)

/-- AssignDamage, first pass: walk the attacker list accumulating the
positions to destroy and the damage dealt to the other players. Stale
attacker or blocker positions are skipped exactly as in the source. -/
def damageCalcGo (bf : List Card) (m : List (Nat × Nat)) :
    List Nat → List Nat → Int → List Nat × Int
  | [], ds, dmg => (ds, dmg)
  | a :: rest, ds, dmg =>
      if h : a < bf.length then
        let atkPow := powerOf (bf.get ⟨a, h⟩)
        match blockedBy m a with
        | some j =>
            if hj : j < bf.length then
              let blkTough := toughnessOf (bf.get ⟨j, hj⟩)
              let blkPow := powerOf (bf.get ⟨j, hj⟩)
              let ds1 := if blkTough ≤ atkPow then ds ++ [j] else ds
              let atkTough := toughnessOf (bf.get ⟨a, h⟩)
              let ds2 := if atkTough ≤ blkPow then ds1 ++ [a] else ds1
              damageCalcGo bf m rest ds2 dmg
            else damageCalcGo bf m rest ds dmg
        | none => damageCalcGo bf m rest ds (dmg + atkPow)
      else damageCalcGo bf m rest ds dmg

/-- `other_players_mut`: subtract the damage from every player other than
the active one. -/
def applyDamageToOthers (players : List Player) (cur : Nat) (dmg : Int) : List Player :=
  players.enum.map fun e => if e.1 == cur then e.2 else { e.2 with life := e.2.life - dmg }

/-- Descending insertion (`sort_by(|a, b| b.cmp(a))` on `Nat` positions). -/
def insertDesc (a : Nat) : List Nat → List Nat
  | [] => [a]
  | b :: bs => if b ≤ a then a :: b :: bs else b :: insertDesc a bs

/-- Descending sort of the destruction positions. -/
def sortDesc : List Nat → List Nat
  | [] => []
  | a :: as => insertDesc a (sortDesc as)

/-- `Vec::dedup`: remove consecutive duplicates (keeping one element of each
run; on equal elements keeping the former or the latter is the same). -/
def dedupConsec : List Nat → List Nat
  | [] => []
  | a :: rest =>
      match rest with
      | [] => [a]
      | b :: _ => if a == b then dedupConsec rest else a :: dedupConsec rest

/-- AssignDamage removal pass: remove each (still valid) position from the
battlefield, collecting the removed cards in order. -/
def destroyLoop : List Card → List Nat → List Card → List Card × List Card
  | bf, [], acc => (bf, acc)
  | bf, i :: rest, acc =>
      if h : i < bf.length then
        destroyLoop (bf.eraseIdx i) rest (acc ++ [bf.get ⟨i, h⟩])
      else destroyLoop bf rest acc

/-- The auto-play DeclareAttackers arm on the whole state. -/
def declareAttackersAuto (s : GameState) (p : Player) : GameState :=
  let idxs := attackerIndices p.battlefield
  ({ s with attacking_creatures := idxs,
            step := GameStep.DeclareBlockers } : GameState).setCurrent
    { p with battlefield := tapAtIndices p.battlefield idxs }

/-- The auto-play DeclareBlockers arm on the whole state. -/
def declareBlockersAuto (s : GameState) (p : Player) : GameState :=
  let decisions := blockDecisions p.battlefield s.attacking_creatures
  { s with blocking_map := decisions.foldl (fun m e => mapInsert m e.1 e.2) [],
           step := GameStep.AssignDamage }

/-- The AssignDamage arm on the whole state. -/
def assignDamagePhase (s : GameState) (p : Player) : GameState :=
  let r := damageCalcGo p.battlefield s.blocking_map s.attacking_creatures [] 0
  let players1 := applyDamageToOthers s.players s.current_player_index r.2
  let idxs := dedupConsec (sortDesc r.1)
  let d := destroyLoop p.battlefield idxs []
  let p' := { p with battlefield := d.1, graveyard := p.graveyard ++ d.2 }
  let players2 := players1.set s.current_player_index p'
  { s with players := players2
           attacking_creatures := []
           blocking_map := []
           step := if players2.any fun q => q.life ≤ 0 then GameStep.GameOver
                   else GameStep.EndTurn }

/-- `GameState::step` from `game.rs`. `none` marks the Rust panic sites:
indexing `players[current_player_index]` with an out-of-range index, and
`% players.len()` with no players. (The name avoids clashing with the
`step` field, which keeps the source's field name.) -/
def stepGame (s : GameState) : Option GameState :=
  match s.step with
  | GameStep.StartTurn =>
      some { s with turns := s.turns + 1, step := GameStep.Untap }
  | GameStep.Untap =>
      s.currentPlayer?.map fun p =>
        ({ s with step := GameStep.Upkeep } : GameState).setCurrent (untapPhase p)
  | GameStep.Upkeep =>
      s.currentPlayer?.map fun p =>
        ({ s with step := GameStep.Draw } : GameState).setCurrent (upkeepPhase p)
  | GameStep.Draw =>
      s.currentPlayer?.map fun p =>
        match popBack p.library with
        | none => { s with step := GameStep.GameOver }
        | some (c, lib') =>
            ({ s with step := GameStep.Main } : GameState).setCurrent
              { p with library := lib', hand := p.hand ++ [c] }
  | GameStep.Main =>
      if s.auto_play then
        s.currentPlayer?.map fun p =>
          ({ s with step := GameStep.DeclareAttackers } : GameState).setCurrent (mainPhase p)
      else if !s.waiting_for_main_decision then
        some { s with waiting_for_main_decision := true }
      else
        some { s with step := GameStep.DeclareAttackers }
  | GameStep.DeclareAttackers =>
      if s.auto_play then
        s.currentPlayer?.map fun p => declareAttackersAuto s p
      else if !s.waiting_for_attack_decision then
        some { s with waiting_for_attack_decision := true }
      else
        some { s with step := GameStep.DeclareBlockers }
  | GameStep.DeclareBlockers =>
      if s.auto_play then
        s.currentPlayer?.map fun p => declareBlockersAuto s p
      else if !s.waiting_for_block_decision then
        some { s with waiting_for_block_decision := true }
      else
        some { s with step := GameStep.AssignDamage }
  | GameStep.AssignDamage =>
      s.currentPlayer?.map fun p => assignDamagePhase s p
  | GameStep.EndTurn =>
      if s.players.length = 0 then none
      else
        some { s with current_player_index := (s.current_player_index + 1) % s.players.length,
                      step := GameStep.StartTurn }
  | GameStep.GameOver => some s

/-- Iterated stepping (`none` propagates a panic). -/
def stepN : Nat → GameState → Option GameState
  | 0, s => some s
  | n + 1, s => (stepGame s).bind (stepN n)

/-- `Player::new`, dealing loop: pop 7 cards off the end of the (shuffled)
library into the hand; popping an empty library is a no-op iteration. -/
def dealGo : Nat → List Card → List Card → List Card × List Card
  | 0, lib, hand => (lib, hand)
  | n + 1, lib, hand =>
      match popBack lib with
      | none => (lib, hand)
      | some (c, lib') => dealGo n lib' (hand ++ [c])

/-- `Player::new` from `game.rs`. The `thread_rng` shuffle is modelled by
taking the already-shuffled library as the argument; theorems assume it is
a permutation of the deck. -/
def Player.new (shuffled : List Card) : Player :=
  let r := dealGo 7 shuffled []
  { life := 20, library := r.1, hand := r.2, battlefield := [], graveyard := [], exile := [] }

/-- `GameState::new` from `game.rs`; `shuffles i` is the shuffled clone of
the deck handed to the `i`-th `Player::new` call. -/
def GameState.new (player_count : Nat) (shuffles : Nat → List Card) : GameState :=
  { players := (List.range (max player_count 2)).map fun i => Player.new (shuffles i)
    current_player_index := 0
    turns := 0
    step := GameStep.StartTurn
    attacking_creatures := []
    blocking_map := []
    auto_play := true
    waiting_for_main_decision := false
    waiting_for_attack_decision := false
    waiting_for_block_decision := false }

/-- The first fragment stored under the Tappable key is a genuine
`TappableFragment` (i.e. `set_tapped` actually has an effect). -/
def hasTappableFragment (c : Card) : Bool :=
  match fragGet c CardFragmentKind.Tappable with
  | some (Fragment.tappable _) => true
  | _ => false

/-- The first fragment stored under the Creature key is a genuine
`CreatureFragment`. -/
def hasCreatureFragment (c : Card) : Bool :=
  match fragGet c CardFragmentKind.Creature with
  | some (Fragment.creature _) => true
  | _ => false

/-- A card that cannot deal attacker combat damage this turn: it is either
summoning-sick or has no creature stats at all (its power defaults to 0). -/
def sickOrStatless (c : Card) : Bool :=
  has_summoning_sickness c || (creature_stats c).isNone

/-- The damage total the claim C4 describes: the sum of the powers of the
valid, unblocked stored attackers. -/
def unblockedAttackerDamage (bf : List Card) (m : List (Nat × Nat)) (atk : List Nat) : Int :=
  ((atk.filter fun a => decide (a < bf.length) && (blockedBy m a).isNone).map fun a =>
      powerOf (bf.getD a default)).sum

/-- Spec-side description of the (amended) auto-blocking candidate choice:
the first battlefield position that is not yet consumed, not an attacker,
and whose creature power (0 without stats) meets the attacker's creature
toughness (0 without stats). -/
def specBlockerChoice (bf : List Card) (attackers used : List Nat) (a : Nat) : Option Nat :=
  (List.range bf.length).find? fun j =>
    !used.contains j && !attackers.contains j &&
      decide (toughnessOf (bf.getD a default) ≤ powerOf (bf.getD j default))

/-- Spec-side description of the (amended) auto-blocking assignment: walk the
attackers in stored order, skip stale positions, give each attacker its
first available candidate and consume it; attackers without a candidate stay
unblocked. -/
def autoBlockSpecGo (bf : List Card) (attackers : List Nat) :
    List Nat → List Nat → List (Nat × Nat)
  | [], _ => []
  | a :: rest, used =>
      if bf.length ≤ a then autoBlockSpecGo bf attackers rest used
      else
        match specBlockerChoice bf attackers used a with
        | none => autoBlockSpecGo bf attackers rest used
        | some j => (j, a) :: autoBlockSpecGo bf attackers rest (j :: used)

/-- Spec-side auto-blocking map (amended C1). -/
def autoBlockSpec (bf : List Card) (attackers : List Nat) : List (Nat × Nat) :=
  autoBlockSpecGo bf attackers attackers []

/-- A 0-cost 2/2 creature used by the concrete scenarios (a `grizzly_bears`
variant the engine can cast without lands). -/
def bear0 : Card :=
  { name := "B"
    card_types := [CardType.Creature]
    cost := 0
    fragments :=
      [(CardFragmentKind.Creature, Fragment.creature ⟨⟨2, 2⟩, false⟩),
       (CardFragmentKind.Tappable, Fragment.tappable ⟨false⟩)] }

/-- `bear0`, already tapped. -/
def bearTapped : Card :=
  { name := "B"
    card_types := [CardType.Creature]
    cost := 0
    fragments :=
      [(CardFragmentKind.Creature, Fragment.creature ⟨⟨2, 2⟩, false⟩),
       (CardFragmentKind.Tappable, Fragment.tappable ⟨true⟩)] }

/-- A Land-tagged card carrying no fragments at all. -/
def landNoTap : Card :=
  { name := "L", card_types := [CardType.Land], cost := 0, fragments := [] }

/-- A 1-cost 1/1 creature. -/
def creatureCost1 : Card :=
  { name := "C"
    card_types := [CardType.Creature]
    cost := 1
    fragments := [(CardFragmentKind.Creature, Fragment.creature ⟨⟨1, 1⟩, false⟩)] }

/-- A default-zones player with the given battlefield and hand. -/
def mkPlayer (bf hand : List Card) : Player :=
  { life := 20, library := [], hand := hand, battlefield := bf, graveyard := [], exile := [] }

/-- A single-player auto-play state parked at the given phase. -/
def mkAutoState (p : Player) (st : GameStep) (atk : List Nat) (m : List (Nat × Nat)) :
    GameState :=
  { players := [p]
    current_player_index := 0
    turns := 1
    step := st
    attacking_creatures := atk
    blocking_map := m
    auto_play := true
    waiting_for_main_decision := false
    waiting_for_attack_decision := false
    waiting_for_block_decision := false }

/-- Reachable 2-player match over a deck of nine 0-cost bears; the shuffle is
the identity permutation. -/
def c2Init : GameState := GameState.new 2 fun _ => List.replicate 9 bear0

/-- DeclareBlockers state whose only non-attacking candidate is tapped. -/
def c1State : GameState := mkAutoState (mkPlayer [bear0, bearTapped] []) GameStep.DeclareBlockers [0] []

/-- Main-phase state: one fragment-free land on the battlefield, one cost-1
creature in hand. -/
def c5State : GameState := mkAutoState (mkPlayer [landNoTap] [creatureCost1]) GameStep.Main [] []

/-- Two-player AssignDamage state with a mutually lethal block. -/
def c3State : GameState :=
  { mkAutoState (mkPlayer [bear0, bear0] []) GameStep.AssignDamage [0] [(1, 0)] with
      players := [mkPlayer [bear0, bear0] [], mkPlayer [] []] }

/-- Two-player AssignDamage state with a single unblocked attacker. -/
def c4State : GameState :=
  { mkAutoState (mkPlayer [bear0] []) GameStep.AssignDamage [0] [] with
      players := [mkPlayer [bear0] [], mkPlayer [] []] }

/-- Draw-phase state with an empty library. -/
def c6State : GameState := mkAutoState (mkPlayer [] []) GameStep.Draw [] []

/-- AssignDamage state whose attacker and blocker records are stale (point
past the battlefield). -/
def c7State : GameState := mkAutoState (mkPlayer [] []) GameStep.AssignDamage [5] [(3, 7)]

/-- `SerializableFragment` from `card.rs`. -/
inductive SerializableFragment where
  | Creature (cf : CreatureFragment)
  | Tappable (tf : TappableFragment)
deriving DecidableEq, Repr

/-- `SerializableFragment::to_fragment`. -/
def SerializableFragment.to_fragment : SerializableFragment → Fragment
  | SerializableFragment.Creature cf => Fragment.creature cf
  | SerializableFragment.Tappable tf => Fragment.tappable tf

/-- `SerializableFragment::from_fragment`: best-effort downcast (total on the
closed fragment sum that exists in the crate, but kept `Option`-valued as in
the source). -/
def SerializableFragment.from_fragment : Fragment → Option SerializableFragment
  | Fragment.creature cf => some (SerializableFragment.Creature cf)
  | Fragment.tappable tf => some (SerializableFragment.Tappable tf)

/-- `serialize_fragments` from `card.rs`: `filter_map` through `from_fragment`. -/
def serialize_fragments (m : List (CardFragmentKind × Fragment)) :
    List (CardFragmentKind × SerializableFragment) :=
  m.filterMap fun e => (SerializableFragment.from_fragment e.2).map fun sf => (e.1, sf)

/-- `deserialize_fragments` from `card.rs`: map back through `to_fragment`. -/
def deserialize_fragments (m : List (CardFragmentKind × SerializableFragment)) :
    List (CardFragmentKind × Fragment) :=
  m.map fun e => (e.1, e.2.to_fragment)

/-- The serialized form of a `Card`: the derived serde layers keep every
field; only `fragments` goes through the custom (de)serializer. -/
structure SCard where
  name : String
  card_types : List CardType
  cost : Nat
  fragments : List (CardFragmentKind × SerializableFragment)
deriving DecidableEq, Repr

/-- Modelled from the spec: the `#[derive(Serialize, Deserialize)]` code for
`Card` is generated, not in `src/`; per §6 the snapshot keeps every field,
with `fragments` routed through `serialize_fragments`. -/
def serializeCard (c : Card) : SCard :=
  { name := c.name, card_types := c.card_types, cost := c.cost
    fragments := serialize_fragments c.fragments }

/-- Modelled from the spec: inverse direction of the derived `Card` codec,
with `fragments` routed through `deserialize_fragments`. -/
def deserializeCard (c : SCard) : Card :=
  { name := c.name, card_types := c.card_types, cost := c.cost
    fragments := deserialize_fragments c.fragments }

/-- Serialized form of a `Player` (derived serde: field by field, cards
through the `Card` codec). -/
structure SPlayer where
  life : Int
  library : List SCard
  hand : List SCard
  battlefield : List SCard
  graveyard : List SCard
  exile : List SCard
deriving DecidableEq, Repr

/-- Modelled from the spec: derived `Player` serialization, field by field. -/
def serializePlayer (p : Player) : SPlayer :=
  { life := p.life
    library := p.library.map serializeCard
    hand := p.hand.map serializeCard
    battlefield := p.battlefield.map serializeCard
    graveyard := p.graveyard.map serializeCard
    exile := p.exile.map serializeCard }

/-- Modelled from the spec: derived `Player` deserialization, field by field. -/
def deserializePlayer (p : SPlayer) : Player :=
  { life := p.life
    library := p.library.map deserializeCard
    hand := p.hand.map deserializeCard
    battlefield := p.battlefield.map deserializeCard
    graveyard := p.graveyard.map deserializeCard
    exile := p.exile.map deserializeCard }

/-- Serialized form of a `GameState` (derived serde; every non-card field is
a plain value that the codec keeps as-is). -/
structure SGameState where
  players : List SPlayer
  current_player_index : Nat
  turns : Nat
  step : GameStep
  attacking_creatures : List Nat
  blocking_map : List (Nat × Nat)
  auto_play : Bool
  waiting_for_main_decision : Bool
  waiting_for_attack_decision : Bool
  waiting_for_block_decision : Bool
deriving DecidableEq, Repr

/-- Modelled from the spec: derived `GameState` serialization. -/
def serializeGameState (s : GameState) : SGameState :=
  { players := s.players.map serializePlayer
    current_player_index := s.current_player_index
    turns := s.turns
    step := s.step
    attacking_creatures := s.attacking_creatures
    blocking_map := s.blocking_map
    auto_play := s.auto_play
    waiting_for_main_decision := s.waiting_for_main_decision
    waiting_for_attack_decision := s.waiting_for_attack_decision
    waiting_for_block_decision := s.waiting_for_block_decision }

/-- Modelled from the spec: derived `GameState` deserialization. -/
def deserializeGameState (s : SGameState) : GameState :=
  { players := s.players.map deserializePlayer
    current_player_index := s.current_player_index
    turns := s.turns
    step := s.step
    attacking_creatures := s.attacking_creatures
    blocking_map := s.blocking_map
    auto_play := s.auto_play
    waiting_for_main_decision := s.waiting_for_main_decision
    waiting_for_attack_decision := s.waiting_for_attack_decision
    waiting_for_block_decision := s.waiting_for_block_decision }

/-! ## Fragment-access lemmas -/

theorem fst_fragUpdate_entry (k : CardFragmentKind) (f : Fragment → Fragment)
    (e : CardFragmentKind × Fragment) :
    (if e.1 == k then (e.1, f e.2) else e).1 = e.1 := by
  by_cases h : e.1 = k <;> simp [h]

theorem find?_map_fragUpdate (l : List (CardFragmentKind × Fragment))
    (k : CardFragmentKind) (f : Fragment → Fragment) :
    ((l.map fun e => if e.1 == k then (e.1, f e.2) else e).find? fun e => e.1 == k) =
      (l.find? fun e => e.1 == k).map fun e => (e.1, f e.2) := by
  rw [List.find?_map]
  have hp : ((fun e : CardFragmentKind × Fragment => e.1 == k) ∘
      fun e => if e.1 == k then (e.1, f e.2) else e) = fun e => e.1 == k := by
    funext e
    by_cases h : e.1 = k <;> simp [Function.comp, h]
  rw [hp]
  cases hfind : l.find? fun e => e.1 == k with
  | none => rfl
  | some e =>
      have he := List.find?_some hfind
      simp only [Option.map]
      rw [if_pos he]

theorem find?_map_fragUpdate_ne (l : List (CardFragmentKind × Fragment))
    (k k' : CardFragmentKind) (f : Fragment → Fragment) (hk : k' ≠ k) :
    ((l.map fun e => if e.1 == k then (e.1, f e.2) else e).find? fun e => e.1 == k') =
      l.find? fun e => e.1 == k' := by
  rw [List.find?_map]
  have hp : ((fun e : CardFragmentKind × Fragment => e.1 == k') ∘
      fun e => if e.1 == k then (e.1, f e.2) else e) = fun e => e.1 == k' := by
    funext e
    by_cases h : e.1 = k <;> simp [Function.comp, h]
  rw [hp]
  cases hfind : l.find? fun e => e.1 == k' with
  | none => rfl
  | some e =>
      have he := List.find?_some hfind
      have he' : e.1 = k' := by simpa using he
      have hek : (e.1 == k) = false := by simp [he', hk]
      simp only [Option.map]
      rw [if_neg (by simp [hek])]

theorem fragGet_fragUpdate_self (c : Card) (k : CardFragmentKind) (f : Fragment → Fragment) :
    fragGet (fragUpdate c k f) k = (fragGet c k).map f := by
  unfold fragGet fragUpdate
  rw [find?_map_fragUpdate]
  cases c.fragments.find? fun e => e.1 == k <;> rfl

theorem fragGet_fragUpdate_ne (c : Card) (k k' : CardFragmentKind) (f : Fragment → Fragment)
    (hk : k' ≠ k) : fragGet (fragUpdate c k f) k' = fragGet c k' := by
  unfold fragGet fragUpdate
  rw [find?_map_fragUpdate_ne _ _ _ _ hk]

@[simp] theorem card_types_fragUpdate (c : Card) (k : CardFragmentKind) (f : Fragment → Fragment) :
    (fragUpdate c k f).card_types = c.card_types := rfl

@[simp] theorem cost_fragUpdate (c : Card) (k : CardFragmentKind) (f : Fragment → Fragment) :
    (fragUpdate c k f).cost = c.cost := rfl

@[simp] theorem is_type_set_tapped (c : Card) (v : Bool) (t : CardType) :
    is_type (set_tapped c v) t = is_type c t := rfl

@[simp] theorem is_type_set_sick (c : Card) (v : Bool) (t : CardType) :
    is_type (set_summoning_sickness c v) t = is_type c t := rfl

@[simp] theorem cost_set_tapped (c : Card) (v : Bool) : (set_tapped c v).cost = c.cost := rfl

@[simp] theorem cost_set_sick (c : Card) (v : Bool) :
    (set_summoning_sickness c v).cost = c.cost := rfl

@[simp] theorem creature_stats_set_tapped (c : Card) (v : Bool) :
    creature_stats (set_tapped c v) = creature_stats c := by
  unfold creature_stats set_tapped
  rw [fragGet_fragUpdate_ne]
  decide

@[simp] theorem has_sick_set_tapped (c : Card) (v : Bool) :
    has_summoning_sickness (set_tapped c v) = has_summoning_sickness c := by
  unfold has_summoning_sickness set_tapped
  rw [fragGet_fragUpdate_ne]
  decide

@[simp] theorem creature_stats_set_sick (c : Card) (v : Bool) :
    creature_stats (set_summoning_sickness c v) = creature_stats c := by
  unfold creature_stats set_summoning_sickness
  rw [fragGet_fragUpdate_self]
  cases h : fragGet c CardFragmentKind.Creature with
  | none => rfl
  | some fr => cases fr <;> rfl

@[simp] theorem powerOf_set_tapped (c : Card) (v : Bool) :
    powerOf (set_tapped c v) = powerOf c := by unfold powerOf; rw [creature_stats_set_tapped]

@[simp] theorem toughnessOf_set_tapped (c : Card) (v : Bool) :
    toughnessOf (set_tapped c v) = toughnessOf c := by
  unfold toughnessOf; rw [creature_stats_set_tapped]

theorem is_tapped_set_tapped (c : Card) (v : Bool) :
    is_tapped (set_tapped c v) = if hasTappableFragment c then v else is_tapped c := by
  unfold is_tapped set_tapped hasTappableFragment
  rw [fragGet_fragUpdate_self]
  cases h : fragGet c CardFragmentKind.Tappable with
  | none => rfl
  | some fr => cases fr <;> rfl

theorem has_sick_set_sick (c : Card) (v : Bool) :
    has_summoning_sickness (set_summoning_sickness c v) =
      if hasCreatureFragment c then v else false := by
  unfold has_summoning_sickness set_summoning_sickness hasCreatureFragment
  rw [fragGet_fragUpdate_self]
  cases h : fragGet c CardFragmentKind.Creature with
  | none => rfl
  | some fr => cases fr <;> rfl

theorem sickOrStatless_set_sick_true (c : Card) :
    sickOrStatless (set_summoning_sickness c true) = true := by
  unfold sickOrStatless
  rw [has_sick_set_sick, creature_stats_set_sick]
  by_cases h : hasCreatureFragment c = true
  · simp [h]
  · have h' : hasCreatureFragment c = false := by revert h; cases hasCreatureFragment c <;> simp
    simp [h']
    unfold hasCreatureFragment at h'
    unfold creature_stats
    cases hf : fragGet c CardFragmentKind.Creature with
    | none => rfl
    | some fr => cases fr with
      | creature cf => rw [hf] at h'; exact absurd h' (by simp)
      | tappable tf => rfl

@[simp] theorem sickOrStatless_set_tapped (c : Card) (v : Bool) :
    sickOrStatless (set_tapped c v) = sickOrStatless c := by
  unfold sickOrStatless
  rw [creature_stats_set_tapped, has_sick_set_tapped]

/-! ## List-helper lemmas -/

theorem extractFirst_eq_none {q : α → Bool} :
    ∀ {l : List α}, extractFirst q l = none ↔ ∀ x ∈ l, q x = false := by
  intro l
  induction l with
  | nil => simp [extractFirst]
  | cons x xs ih =>
      by_cases hx : q x = true
      · simp [extractFirst, hx]
      · have hx' : q x = false := by revert hx; cases q x <;> simp
        constructor
        · intro h y hy
          rcases List.mem_cons.mp hy with rfl | hy'
          · exact hx'
          · refine ih.mp ?_ y hy'
            by_contra hne
            rcases Option.ne_none_iff_exists.mp hne with ⟨p, hp⟩
            simp [extractFirst, hx', ← hp] at h
        · intro h
          have : extractFirst q xs = none := ih.mpr fun y hy => h y (List.mem_cons_of_mem _ hy)
          simp [extractFirst, hx', this]

theorem extractFirst_eq_some {q : α → Bool} :
    ∀ {l : List α} {c : α} {l' : List α}, extractFirst q l = some (c, l') →
      ∃ pre post, l = pre ++ c :: post ∧ l' = pre ++ post ∧ q c = true ∧
        ∀ x ∈ pre, q x = false := by
  intro l
  induction l with
  | nil => intro c l' h; simp [extractFirst] at h
  | cons x xs ih =>
      intro c l' h
      by_cases hx : q x = true
      · simp only [extractFirst, hx, if_true, Option.some.injEq, Prod.mk.injEq] at h
        obtain ⟨hc, hl'⟩ := h
        exact ⟨[], xs, by simp [hc], by simp [hl'], hc ▸ hx, by simp⟩
      · have hx' : q x = false := by revert hx; cases q x <;> simp
        simp only [extractFirst, hx', Bool.false_eq_true, if_false] at h
        cases hrec : extractFirst q xs with
        | none => rw [hrec] at h; exact absurd h (by simp)
        | some p =>
            obtain ⟨pc, pl⟩ := p
            rw [hrec] at h
            simp only [Option.map_some', Option.some.injEq, Prod.mk.injEq] at h
            obtain ⟨hc, hl'⟩ := h
            rcases ih (by rw [hrec, hc]) with ⟨pre, post, hxs, hp2, hqc, hpre⟩
            refine ⟨x :: pre, post, ?_, ?_, hqc, ?_⟩
            · simp [hxs]
            · rw [← hl']
              simp [hp2]
            · intro y hy
              rcases List.mem_cons.mp hy with rfl | hy'
              · exact hx'
              · exact hpre y hy'

theorem extractFirst_some_length {q : α → Bool} {l l' : List α} {c : α}
    (h : extractFirst q l = some (c, l')) : l'.length + 1 = l.length := by
  rcases extractFirst_eq_some h with ⟨pre, post, hl, hl', _, _⟩
  subst hl hl'
  simp [Nat.succ_eq_add_one]
  omega

theorem popBack_eq_none : ∀ {l : List α}, popBack l = none ↔ l = []
  | [] => by simp [popBack]
  | [x] => by simp [popBack]
  | x :: y :: xs => by
      constructor
      · intro h
        simp only [popBack] at h
        cases hrec : popBack (y :: xs) with
        | none => exact absurd (popBack_eq_none.mp hrec) (by simp)
        | some p => rw [hrec] at h; simp at h
      · intro h; simp at h

theorem popBack_eq_some : ∀ {l : List α} {c : α} {l' : List α},
    popBack l = some (c, l') → l = l' ++ [c] := by
  intro l
  induction l with
  | nil => intro c l' h; simp [popBack] at h
  | cons x xs ih =>
      intro c l' h
      cases xs with
      | nil => simp [popBack] at h; simp [h.1, ← h.2]
      | cons y ys =>
          simp only [popBack] at h
          cases hrec : popBack (y :: ys) with
          | none => rw [hrec] at h; exact absurd h (by simp)
          | some p =>
              obtain ⟨pc, pl⟩ := p
              rw [hrec] at h
              simp only [Option.map_some', Option.some.injEq, Prod.mk.injEq] at h
              obtain ⟨hc, hl'⟩ := h
              have := ih (by rw [hrec, hc])
              rw [← hl']
              simpa using this

/-! ## Serialization round-trip (C9) -/

theorem to_fragment_from_fragment (f : Fragment) :
    (SerializableFragment.from_fragment f).map SerializableFragment.to_fragment = some f := by
  cases f <;> rfl

theorem deserialize_serialize_fragments :
    ∀ m : List (CardFragmentKind × Fragment), deserialize_fragments (serialize_fragments m) = m
  | [] => rfl
  | (k, Fragment.creature cf) :: es => by
      show (k, Fragment.creature cf) :: deserialize_fragments (serialize_fragments es) =
        (k, Fragment.creature cf) :: es
      rw [deserialize_serialize_fragments es]
  | (k, Fragment.tappable tf) :: es => by
      show (k, Fragment.tappable tf) :: deserialize_fragments (serialize_fragments es) =
        (k, Fragment.tappable tf) :: es
      rw [deserialize_serialize_fragments es]

theorem deserializeCard_serializeCard (c : Card) : deserializeCard (serializeCard c) = c := by
  cases c
  simp [serializeCard, deserializeCard, deserialize_serialize_fragments]

theorem map_card_roundtrip (l : List Card) : (l.map serializeCard).map deserializeCard = l := by
  rw [List.map_map]
  have h : deserializeCard ∘ serializeCard = id := funext deserializeCard_serializeCard
  rw [h, List.map_id]

theorem deserializePlayer_serializePlayer (p : Player) :
    deserializePlayer (serializePlayer p) = p := by
  cases p
  have h : deserializeCard ∘ serializeCard = id := funext deserializeCard_serializeCard
  simp [serializePlayer, deserializePlayer, List.map_map, h]

/-- C9: serializing an entire match state and deserializing the result gives
back an equal state — every zone's card order, every fragment's fields, tag
sets, costs, life totals, phase, turn count, attacker/blocker records and
the auto-play / pending-decision flags round-trip losslessly (for every
state, reachable or not). -/
theorem c9_roundtrip (s : GameState) : deserializeGameState (serializeGameState s) = s := by
  cases s
  simp only [serializeGameState, deserializeGameState, List.map_map]
  have h : deserializePlayer ∘ serializePlayer = id := funext deserializePlayer_serializePlayer
  rw [h, List.map_id]

/-! ## Construction flags (C10) -/

/-- C10: every freshly constructed match has `auto_play = true` and all
three pending-decision flags cleared, for every player count and deck. -/
theorem c10_new_flags (player_count : Nat) (shuffles : Nat → List Card) :
    (GameState.new player_count shuffles).auto_play = true ∧
      (GameState.new player_count shuffles).waiting_for_main_decision = false ∧
      (GameState.new player_count shuffles).waiting_for_attack_decision = false ∧
      (GameState.new player_count shuffles).waiting_for_block_decision = false :=
  ⟨rfl, rfl, rfl, rfl⟩

/-! ## Empty-library draw (C6) -/

/-- C6: stepping the Draw phase with an empty library moves the phase
directly to GameOver and changes nothing else — players (hands, all zones,
life totals), turn counter, attacker/blocker records and flags are exactly
as before, as the record update shows. -/
theorem c6_draw_empty_gameover (s : GameState) (hstep : s.step = GameStep.Draw)
    (p : Player) (hp : s.currentPlayer? = some p) (hlib : p.library = []) :
    stepGame s = some { s with step := GameStep.GameOver } := by
  simp [stepGame, hstep, hp, hlib, popBack]

/-- Witness for C6 at a concrete state. -/
theorem c6_draw_empty_gameover_witness :
    c6State.step = GameStep.Draw ∧ (mkPlayer [] []).library = [] ∧
      stepGame c6State = some { c6State with step := GameStep.GameOver } :=
  ⟨rfl, rfl, c6_draw_empty_gameover c6State rfl (mkPlayer [] []) rfl rfl⟩

/-! ## Match construction (C8) -/

theorem dealGo_perm :
    ∀ (n : Nat) (lib hand : List Card),
      ((dealGo n lib hand).1 ++ (dealGo n lib hand).2).Perm (lib ++ hand) := by
  intro n
  induction n with
  | zero => intro lib hand; simp [dealGo]
  | succ n ih =>
      intro lib hand
      cases hpop : popBack lib with
      | none => simp [dealGo, hpop]
      | some p =>
          obtain ⟨c, lib'⟩ := p
          have hl : lib = lib' ++ [c] := popBack_eq_some hpop
          simp only [dealGo, hpop]
          refine (ih lib' (hand ++ [c])).trans ?_
          rw [hl, List.append_assoc]
          exact List.Perm.append_left lib' (List.perm_append_comm)

theorem dealGo_lengths :
    ∀ (n : Nat) (lib hand : List Card), n ≤ lib.length →
      (dealGo n lib hand).1.length = lib.length - n ∧
        (dealGo n lib hand).2.length = hand.length + n := by
  intro n
  induction n with
  | zero => intro lib hand _; simp [dealGo]
  | succ n ih =>
      intro lib hand hle
      cases hpop : popBack lib with
      | none =>
          have : lib = [] := popBack_eq_none.mp hpop
          subst this
          simp at hle
      | some p =>
          obtain ⟨c, lib'⟩ := p
          have hl : lib = lib' ++ [c] := popBack_eq_some hpop
          have hlen : lib.length = lib'.length + 1 := by simp [hl]
          simp only [dealGo, hpop]
          have hle' : n ≤ lib'.length := by omega
          rcases ih lib' (hand ++ [c]) hle' with ⟨h1, h2⟩
          constructor
          · rw [h1]; omega
          · rw [h2]; simp; omega

/-- C8: `GameState::new` builds `max(player_count, 2)` players (a
`player_count` below 2 is normalized up, never rejected); each player has
life 20, empty battlefield/graveyard/exile, a library-plus-hand that is a
permutation of the deck, and a 7-card hand whenever the deck has at least
7 cards; the phase is StartTurn, the turn counter 0 and player 0 active. -/
theorem c8_new_match (player_count : Nat) (deck : Deck) (shuffles : Nat → List Card)
    (hshuf : ∀ i, (shuffles i).Perm deck.cards) :
    (GameState.new player_count shuffles).players.length = max player_count 2 ∧
      2 ≤ (GameState.new player_count shuffles).players.length ∧
      (∀ p ∈ (GameState.new player_count shuffles).players,
        p.life = 20 ∧ p.battlefield = [] ∧ p.graveyard = [] ∧ p.exile = [] ∧
          (p.library ++ p.hand).Perm deck.cards ∧
          (7 ≤ deck.cards.length → p.hand.length = 7)) ∧
      (GameState.new player_count shuffles).step = GameStep.StartTurn ∧
      (GameState.new player_count shuffles).turns = 0 ∧
      (GameState.new player_count shuffles).current_player_index = 0 := by
  refine ⟨by simp [GameState.new], by simp [GameState.new], ?_, rfl, rfl, rfl⟩
  intro p hp
  simp only [GameState.new, List.mem_map] at hp
  rcases hp with ⟨i, _, rfl⟩
  refine ⟨rfl, rfl, rfl, rfl, ?_, ?_⟩
  · have h := dealGo_perm 7 (shuffles i) []
    simp only [List.append_nil] at h
    exact h.trans (hshuf i)
  · intro hdeck
    have hlen : (shuffles i).length = deck.cards.length := (hshuf i).length_eq
    have h7 : 7 ≤ (shuffles i).length := by omega
    exact (dealGo_lengths 7 (shuffles i) [] h7).2

/-- Witness for C8: a 7-forest deck, identity shuffle, `player_count = 0`
(normalized up to 2). -/
theorem c8_new_match_witness :
    (∀ i : Nat, ((fun _ : Nat => (Deck.mk (List.replicate 7 forest)).cards) i).Perm
        (Deck.mk (List.replicate 7 forest)).cards) ∧
    ((GameState.new 0 fun _ => (Deck.mk (List.replicate 7 forest)).cards).players.length =
        max 0 2 ∧
      2 ≤ (GameState.new 0 fun _ => (Deck.mk (List.replicate 7 forest)).cards).players.length ∧
      (∀ p ∈ (GameState.new 0 fun _ => (Deck.mk (List.replicate 7 forest)).cards).players,
        p.life = 20 ∧ p.battlefield = [] ∧ p.graveyard = [] ∧ p.exile = [] ∧
          (p.library ++ p.hand).Perm (Deck.mk (List.replicate 7 forest)).cards ∧
          (7 ≤ (Deck.mk (List.replicate 7 forest)).cards.length → p.hand.length = 7)) ∧
      (GameState.new 0 fun _ => (Deck.mk (List.replicate 7 forest)).cards).step =
        GameStep.StartTurn ∧
      (GameState.new 0 fun _ => (Deck.mk (List.replicate 7 forest)).cards).turns = 0 ∧
      (GameState.new 0 fun _ => (Deck.mk (List.replicate 7 forest)).cards).current_player_index
        = 0) :=
  ⟨fun _ => List.Perm.refl _,
    c8_new_match 0 (Deck.mk (List.replicate 7 forest)) _ fun _ => List.Perm.refl _⟩

/-! ## Unblocked combat damage (C4) -/

theorem getD_eq_get {l : List α} {n : Nat} (d : α) (h : n < l.length) [Inhabited α] :
    l.getD n d = l.get ⟨n, h⟩ := by
  rw [List.getD_eq_getD_get?, List.get?_eq_get h]
  rfl

theorem damageCalcGo_snd (bf : List Card) (m : List (Nat × Nat)) :
    ∀ (atk ds : List Nat) (dmg : Int),
      (damageCalcGo bf m atk ds dmg).2 = dmg + unblockedAttackerDamage bf m atk := by
  intro atk
  induction atk with
  | nil => intro ds dmg; simp [damageCalcGo, unblockedAttackerDamage]
  | cons a rest ih =>
      intro ds dmg
      by_cases h : a < bf.length
      · cases hb : blockedBy m a with
        | some j =>
            by_cases hj : j < bf.length
            · simp only [damageCalcGo, dif_pos h, hb, dif_pos hj]
              rw [ih]
              simp [unblockedAttackerDamage, hb]
            · simp only [damageCalcGo, dif_pos h, hb, dif_neg hj]
              rw [ih]
              simp [unblockedAttackerDamage, hb]
        | none =>
            simp only [damageCalcGo, dif_pos h, hb]
            rw [ih]
            simp only [unblockedAttackerDamage, List.filter_cons]
            have hcond : (decide (a < bf.length) && (blockedBy m a).isNone) = true := by
              simp [h, hb]
            rw [hcond]
            simp only [if_true, List.map_cons, List.sum_cons]
            rw [getD_eq_get default h]
            have : unblockedAttackerDamage bf m rest =
                ((rest.filter fun a => decide (a < bf.length) && (blockedBy m a).isNone).map
                  fun a => powerOf (bf.getD a default)).sum := rfl
            rw [← this]
            omega
      · simp only [damageCalcGo, dif_neg h]
        rw [ih]
        simp [unblockedAttackerDamage, h]

theorem get?_map_enum (l : List α) (f : Nat × α → β) (k : Nat) :
    (l.enum.map f).get? k = (l.get? k).map fun a => f (k, a) := by
  rw [List.get?_map, List.get?_enum]
  cases l.get? k <;> rfl

theorem applyDamageToOthers_get? (ps : List Player) (cur : Nat) (dmg : Int) (k : Nat) :
    (applyDamageToOthers ps cur dmg).get? k =
      (ps.get? k).map fun q => if k = cur then q else { q with life := q.life - dmg } := by
  unfold applyDamageToOthers
  rw [get?_map_enum]
  cases ps.get? k with
  | none => rfl
  | some q =>
      by_cases hk : k = cur
      · simp [hk]
      · simp [hk]

theorem applyDamageToOthers_length (ps : List Player) (cur : Nat) (dmg : Int) :
    (applyDamageToOthers ps cur dmg).length = ps.length := by
  simp [applyDamageToOthers]

/-- C4: at AssignDamage, the life total of every player other than the
active one drops by exactly the summed power of the valid, unblocked stored
attackers, and the active player's life total is unchanged. -/
theorem c4_unblocked_damage (s : GameState) (hstep : s.step = GameStep.AssignDamage)
    (p : Player) (hp : s.currentPlayer? = some p) (k : Nat) (hk : k < s.players.length) :
    ∃ s', stepGame s = some s' ∧
      (k ≠ s.current_player_index →
        (s'.players.get? k).map Player.life = (s.players.get? k).map fun q =>
          q.life - unblockedAttackerDamage p.battlefield s.blocking_map s.attacking_creatures) ∧
      (s'.players.get? s.current_player_index).map Player.life =
        (s.players.get? s.current_player_index).map Player.life := by
  have hcur : s.current_player_index < s.players.length := by
    by_contra hge
    have : s.players.get? s.current_player_index = none :=
      List.get?_eq_none.mpr (Nat.le_of_not_lt hge)
    rw [GameState.currentPlayer?, this] at hp
    exact Option.noConfusion hp
  refine ⟨assignDamagePhase s p, by simp [stepGame, hstep, hp], ?_, ?_⟩
  · intro hne
    have hdmg := damageCalcGo_snd p.battlefield s.blocking_map s.attacking_creatures [] 0
    unfold assignDamagePhase
    simp only
    rw [List.get?_set_ne _ _ (fun h => hne h.symm), applyDamageToOthers_get?]
    cases hq : s.players.get? k with
    | none => rfl
    | some q => simp [hne, hdmg]
  · unfold assignDamagePhase
    simp only
    have hlen : k < (applyDamageToOthers s.players s.current_player_index
        (damageCalcGo p.battlefield s.blocking_map s.attacking_creatures [] 0).2).length := by
      rw [applyDamageToOthers_length]; exact hk
    have hlencur : s.current_player_index <
        (applyDamageToOthers s.players s.current_player_index
          (damageCalcGo p.battlefield s.blocking_map s.attacking_creatures [] 0).2).length := by
      rw [applyDamageToOthers_length]; exact hcur
    rw [List.get?_set_eq_of_lt _ hlencur]
    have hpq : s.players.get? s.current_player_index = some p := hp
    simp [← List.get?_eq_getElem?, hpq]

/-- Witness for C4 at a concrete two-player state with one unblocked 2-power
attacker. -/
theorem c4_unblocked_damage_witness :
    c4State.step = GameStep.AssignDamage ∧ c4State.currentPlayer? = some (mkPlayer [bear0] []) ∧
      (1 : Nat) < c4State.players.length ∧
      (∃ s', stepGame c4State = some s' ∧
        ((1 : Nat) ≠ c4State.current_player_index →
          (s'.players.get? 1).map Player.life = (c4State.players.get? 1).map fun q =>
            q.life - unblockedAttackerDamage (mkPlayer [bear0] []).battlefield
              c4State.blocking_map c4State.attacking_creatures) ∧
        (s'.players.get? c4State.current_player_index).map Player.life =
          (c4State.players.get? c4State.current_player_index).map Player.life) :=
  ⟨rfl, rfl, by decide,
    c4_unblocked_damage c4State rfl (mkPlayer [bear0] []) rfl 1 (by decide)⟩

/-! ## Totality of `step` (C7) -/

theorem assignDamagePhase_players_length (s : GameState) (p : Player) :
    (assignDamagePhase s p).players.length = s.players.length := by
  simp [assignDamagePhase, applyDamageToOthers_length]

/-- C7: on every state whose active-player index is in range (the invariant
every reachable state satisfies), `step` succeeds — whatever stale indices
`attacking_creatures` or `blocking_map` contain, they are skipped, never
used to index the battlefield — and the invariant is preserved, so stepping
can never panic. -/
theorem c7_step_total (s : GameState) (h : s.current_player_index < s.players.length) :
    ∃ s', stepGame s = some s' ∧ s'.current_player_index < s'.players.length := by
  obtain ⟨p, hp⟩ : ∃ p, s.currentPlayer? = some p := ⟨_, List.get?_eq_get h⟩
  have hlen0 : s.players.length ≠ 0 := by omega
  cases hstep : s.step with
  | StartTurn => exact ⟨_, by simp only [stepGame, hstep]; rfl, by simpa using h⟩
  | Untap =>
      refine ⟨_, by simp only [stepGame, hstep, hp, Option.map_some']; rfl, ?_⟩
      simpa [GameState.setCurrent] using h
  | Upkeep =>
      refine ⟨_, by simp only [stepGame, hstep, hp, Option.map_some']; rfl, ?_⟩
      simpa [GameState.setCurrent] using h
  | Draw =>
      cases hpop : popBack p.library with
      | none =>
          refine ⟨_, by simp only [stepGame, hstep, hp, Option.map_some', hpop]; rfl, ?_⟩
          simpa using h
      | some pr =>
          refine ⟨_, by simp only [stepGame, hstep, hp, Option.map_some', hpop]; rfl, ?_⟩
          simpa [GameState.setCurrent] using h
  | Main =>
      by_cases hauto : s.auto_play = true
      · refine ⟨_, by simp only [stepGame, hstep, hauto, if_true, hp, Option.map_some']; rfl, ?_⟩
        simpa [GameState.setCurrent] using h
      · have hauto' : s.auto_play = false := by revert hauto; cases s.auto_play <;> simp
        by_cases hw : s.waiting_for_main_decision = true
        · exact ⟨_, by simp only [stepGame, hstep, hauto', hw]; rfl, by simpa using h⟩
        · have hw' : s.waiting_for_main_decision = false := by
            revert hw; cases s.waiting_for_main_decision <;> simp
          exact ⟨_, by simp only [stepGame, hstep, hauto', hw']; rfl, by simpa using h⟩
  | DeclareAttackers =>
      by_cases hauto : s.auto_play = true
      · refine ⟨_, by simp only [stepGame, hstep, hauto, if_true, hp, Option.map_some']; rfl, ?_⟩
        simpa [declareAttackersAuto, GameState.setCurrent] using h
      · have hauto' : s.auto_play = false := by revert hauto; cases s.auto_play <;> simp
        by_cases hw : s.waiting_for_attack_decision = true
        · exact ⟨_, by simp only [stepGame, hstep, hauto', hw]; rfl, by simpa using h⟩
        · have hw' : s.waiting_for_attack_decision = false := by
            revert hw; cases s.waiting_for_attack_decision <;> simp
          exact ⟨_, by simp only [stepGame, hstep, hauto', hw']; rfl, by simpa using h⟩
  | DeclareBlockers =>
      by_cases hauto : s.auto_play = true
      · refine ⟨_, by simp only [stepGame, hstep, hauto, if_true, hp, Option.map_some']; rfl, ?_⟩
        simpa [declareBlockersAuto] using h
      · have hauto' : s.auto_play = false := by revert hauto; cases s.auto_play <;> simp
        by_cases hw : s.waiting_for_block_decision = true
        · exact ⟨_, by simp only [stepGame, hstep, hauto', hw]; rfl, by simpa using h⟩
        · have hw' : s.waiting_for_block_decision = false := by
            revert hw; cases s.waiting_for_block_decision <;> simp
          exact ⟨_, by simp only [stepGame, hstep, hauto', hw']; rfl, by simpa using h⟩
  | AssignDamage =>
      refine ⟨_, by simp only [stepGame, hstep, hp, Option.map_some']; rfl, ?_⟩
      show s.current_player_index < (assignDamagePhase s _).players.length
      rw [assignDamagePhase_players_length]
      exact h
  | EndTurn =>
      refine ⟨_, by simp only [stepGame, hstep, if_neg hlen0]; rfl, ?_⟩
      exact Nat.mod_lt _ (Nat.pos_of_ne_zero hlen0)
  | GameOver => exact ⟨s, by simp only [stepGame, hstep], h⟩

/-- Witness for C7 at a concrete state whose attacker and blocker records
are entirely stale. -/
theorem c7_step_total_witness :
    c7State.current_player_index < c7State.players.length ∧
      ∃ s', stepGame c7State = some s' ∧
        s'.current_player_index < s'.players.length :=
  ⟨by decide, c7_step_total c7State (by decide)⟩

/-! ## Mutual destruction in AssignDamage (C3) -/

theorem damageCalcGo_fst_mono (bf : List Card) (m : List (Nat × Nat)) :
    ∀ (atk ds : List Nat) (dmg : Int) (x : Nat), x ∈ ds → x ∈ (damageCalcGo bf m atk ds dmg).1 := by
  intro atk
  induction atk with
  | nil => intro ds dmg x hx; simpa [damageCalcGo] using hx
  | cons a rest ih =>
      intro ds dmg x hx
      by_cases h : a < bf.length
      · cases hb : blockedBy m a with
        | some j =>
            by_cases hj : j < bf.length
            · simp only [damageCalcGo, dif_pos h, hb, dif_pos hj]
              apply ih
              split <;> split <;> simp [hx]
            · simp only [damageCalcGo, dif_pos h, hb, dif_neg hj]
              exact ih ds dmg x hx
        | none =>
            simp only [damageCalcGo, dif_pos h, hb]
            exact ih ds _ x hx
      · simp only [damageCalcGo, dif_neg h]
        exact ih ds dmg x hx

theorem damageCalcGo_mem_destroy (bf : List Card) (m : List (Nat × Nat)) {i j : Nat}
    (hi : i < bf.length) (hj : j < bf.length) (hb : blockedBy m i = some j)
    (h1 : toughnessOf (bf.get ⟨j, hj⟩) ≤ powerOf (bf.get ⟨i, hi⟩))
    (h2 : toughnessOf (bf.get ⟨i, hi⟩) ≤ powerOf (bf.get ⟨j, hj⟩)) :
    ∀ (atk ds : List Nat) (dmg : Int), i ∈ atk →
      i ∈ (damageCalcGo bf m atk ds dmg).1 ∧ j ∈ (damageCalcGo bf m atk ds dmg).1 := by
  intro atk
  induction atk with
  | nil => intro ds dmg hmem; exact absurd hmem (List.not_mem_nil i)
  | cons a rest ih =>
      intro ds dmg hmem
      rcases List.mem_cons.mp hmem with rfl | hmem'
      · simp only [damageCalcGo, dif_pos hi, hb, dif_pos hj, if_pos h1, if_pos h2]
        constructor
        · exact damageCalcGo_fst_mono bf m rest _ dmg i (by simp)
        · exact damageCalcGo_fst_mono bf m rest _ dmg j (by simp)
      · by_cases h : a < bf.length
        · cases hba : blockedBy m a with
          | some j' =>
              by_cases hj' : j' < bf.length
              · simp only [damageCalcGo, dif_pos h, hba, dif_pos hj']
                exact ih _ dmg hmem'
              · simp only [damageCalcGo, dif_pos h, hba, dif_neg hj']
                exact ih ds dmg hmem'
          | none =>
              simp only [damageCalcGo, dif_pos h, hba]
              exact ih ds _ hmem'
        · simp only [damageCalcGo, dif_neg h]
          exact ih ds dmg hmem'

theorem mem_insertDesc {a x : Nat} : ∀ {l : List Nat}, x ∈ insertDesc a l ↔ x = a ∨ x ∈ l := by
  intro l
  induction l with
  | nil => simp [insertDesc]
  | cons b bs ih =>
      by_cases hba : b ≤ a
      · simp [insertDesc, hba]
      · simp only [insertDesc, if_neg hba, List.mem_cons, ih]
        tauto

theorem mem_sortDesc {x : Nat} : ∀ {l : List Nat}, x ∈ sortDesc l ↔ x ∈ l := by
  intro l
  induction l with
  | nil => simp [sortDesc]
  | cons a as ih => simp [sortDesc, mem_insertDesc, ih]

theorem pairwise_ge_insertDesc {a : Nat} :
    ∀ {l : List Nat}, l.Pairwise (fun x y => y ≤ x) →
      (insertDesc a l).Pairwise (fun x y => y ≤ x) := by
  intro l
  induction l with
  | nil => intro _; simp [insertDesc]
  | cons b bs ih =>
      intro h
      rcases List.pairwise_cons.mp h with ⟨hb, hbs⟩
      by_cases hba : b ≤ a
      · rw [insertDesc, if_pos hba]
        refine List.pairwise_cons.mpr ⟨?_, h⟩
        intro y hy
        rcases List.mem_cons.mp hy with rfl | hy'
        · exact hba
        · exact le_trans (hb y hy') hba
      · rw [insertDesc, if_neg hba]
        refine List.pairwise_cons.mpr ⟨?_, ih hbs⟩
        intro y hy
        rcases mem_insertDesc.mp hy with rfl | hy'
        · omega
        · exact hb y hy'

theorem pairwise_ge_sortDesc : ∀ (l : List Nat), (sortDesc l).Pairwise (fun x y => y ≤ x) := by
  intro l
  induction l with
  | nil => simp [sortDesc]
  | cons a as ih => exact pairwise_ge_insertDesc ih

theorem dedupConsec_cons_cons (a b : Nat) (rest : List Nat) :
    dedupConsec (a :: b :: rest) =
      if a = b then dedupConsec (b :: rest) else a :: dedupConsec (b :: rest) := by
  show (if a == b then dedupConsec (b :: rest) else a :: dedupConsec (b :: rest)) = _
  by_cases hab : a = b <;> simp [hab]

theorem mem_dedupConsec : ∀ (l : List Nat) (x : Nat), x ∈ dedupConsec l ↔ x ∈ l
  | [], x => by simp [dedupConsec]
  | [a], x => by simp [dedupConsec]
  | a :: b :: rest, x => by
      by_cases hab : a = b
      · rw [dedupConsec_cons_cons, if_pos hab]
        rw [mem_dedupConsec (b :: rest) x]
        subst hab
        simp [List.mem_cons]
      · rw [dedupConsec_cons_cons, if_neg hab]
        simp [List.mem_cons, mem_dedupConsec (b :: rest) x]

theorem pairwise_gt_dedupConsec :
    ∀ (l : List Nat), l.Pairwise (fun x y => y ≤ x) →
      (dedupConsec l).Pairwise (fun x y => y < x)
  | [] => by simp [dedupConsec]
  | [a] => by simp [dedupConsec]
  | a :: b :: rest => by
      intro h
      rcases List.pairwise_cons.mp h with ⟨ha, h'⟩
      rcases List.pairwise_cons.mp h' with ⟨hbr, hr⟩
      by_cases hab : a = b
      · rw [dedupConsec_cons_cons, if_pos hab]
        exact pairwise_gt_dedupConsec (b :: rest) h'
      · rw [dedupConsec_cons_cons, if_neg hab]
        refine List.pairwise_cons.mpr ⟨?_, pairwise_gt_dedupConsec (b :: rest) h'⟩
        intro y hy
        have hy' := (mem_dedupConsec (b :: rest) y).mp hy
        have hba : b < a := by
          have := ha b (by simp)
          omega
        rcases List.mem_cons.mp hy' with rfl | hy''
        · exact hba
        · have := hbr y hy''
          omega

theorem destroyLoop_acc_mono :
    ∀ (idxs : List Nat) (bf : List Card) (acc : List Card) (c : Card),
      c ∈ acc → c ∈ (destroyLoop bf idxs acc).2 := by
  intro idxs
  induction idxs with
  | nil => intro bf acc c hc; simpa [destroyLoop] using hc
  | cons i rest ih =>
      intro bf acc c hc
      by_cases h : i < bf.length
      · rw [destroyLoop, dif_pos h]
        exact ih _ _ _ (List.mem_append_left _ hc)
      · rw [destroyLoop, dif_neg h]
        exact ih _ _ _ hc

theorem destroyLoop_mem :
    ∀ (idxs : List Nat) (bf : List Card) (acc : List Card) (x : Nat) (c : Card),
      idxs.Pairwise (fun a b => b < a) → x ∈ idxs → bf[x]? = some c →
        c ∈ (destroyLoop bf idxs acc).2 := by
  intro idxs
  induction idxs with
  | nil => intro bf acc x c _ hmem _; exact absurd hmem (List.not_mem_nil x)
  | cons i rest ih =>
      intro bf acc x c hpw hmem hget
      rcases List.pairwise_cons.mp hpw with ⟨hhead, htail⟩
      rcases List.mem_cons.mp hmem with rfl | hmem'
      · have hx : x < bf.length := by
          by_contra hge
          rw [List.getElem?_eq_none (Nat.le_of_not_lt hge)] at hget
          exact Option.noConfusion hget
        rw [destroyLoop, dif_pos hx]
        apply destroyLoop_acc_mono
        have : bf.get ⟨x, hx⟩ = c := by
          have := List.getElem?_eq_getElem hx
          rw [this] at hget
          simpa using hget
        rw [this]
        simp
      · have hxi : x < i := hhead x hmem'
        by_cases h : i < bf.length
        · rw [destroyLoop, dif_pos h]
          apply ih _ _ x c htail hmem'
          rw [List.getElem?_eraseIdx_of_lt _ _ _ hxi]
          exact hget
        · rw [destroyLoop, dif_neg h]
          exact ih _ _ x c htail hmem' hget

/-- C3: at AssignDamage, a blocked attacker whose power meets the blocker's
toughness while the blocker's power meets the attacker's toughness is
destroyed together with its blocker in the very same resolution — both
cards are moved to the graveyard of the resulting state (the collection of
all lethal positions happens before any removal, which proceeds in
descending index order, so neither death can mask the other). -/
theorem c3_mutual_destruction (s : GameState) (hstep : s.step = GameStep.AssignDamage)
    (p : Player) (hp : s.currentPlayer? = some p) (i j : Nat)
    (hi : i < p.battlefield.length) (hj : j < p.battlefield.length)
    (hatk : i ∈ s.attacking_creatures) (hb : blockedBy s.blocking_map i = some j)
    (h1 : toughnessOf (p.battlefield.get ⟨j, hj⟩) ≤ powerOf (p.battlefield.get ⟨i, hi⟩))
    (h2 : toughnessOf (p.battlefield.get ⟨i, hi⟩) ≤ powerOf (p.battlefield.get ⟨j, hj⟩)) :
    ∃ s' p', stepGame s = some s' ∧ s'.currentPlayer? = some p' ∧
      p.battlefield.get ⟨i, hi⟩ ∈ p'.graveyard ∧ p.battlefield.get ⟨j, hj⟩ ∈ p'.graveyard := by
  have hcur : s.current_player_index < s.players.length := by
    by_contra hge
    have : s.players.get? s.current_player_index = none :=
      List.get?_eq_none.mpr (Nat.le_of_not_lt hge)
    rw [GameState.currentPlayer?, this] at hp
    exact Option.noConfusion hp
  have hds := damageCalcGo_mem_destroy p.battlefield s.blocking_map hi hj hb h1 h2
    s.attacking_creatures [] 0 hatk
  set r := damageCalcGo p.battlefield s.blocking_map s.attacking_creatures [] 0 with hr
  set idxs := dedupConsec (sortDesc r.1) with hidxs
  have hpw : idxs.Pairwise (fun a b => b < a) :=
    pairwise_gt_dedupConsec _ (pairwise_ge_sortDesc _)
  have hmi : i ∈ idxs := (mem_dedupConsec _ _).mpr (mem_sortDesc.mpr hds.1)
  have hmj : j ∈ idxs := (mem_dedupConsec _ _).mpr (mem_sortDesc.mpr hds.2)
  have hgi : p.battlefield[i]? = some (p.battlefield.get ⟨i, hi⟩) := by
    rw [List.getElem?_eq_getElem hi]; simp [List.get_eq_getElem]
  have hgj : p.battlefield[j]? = some (p.battlefield.get ⟨j, hj⟩) := by
    rw [List.getElem?_eq_getElem hj]; simp [List.get_eq_getElem]
  have hdi := destroyLoop_mem idxs p.battlefield [] i _ hpw hmi hgi
  have hdj := destroyLoop_mem idxs p.battlefield [] j _ hpw hmj hgj
  have hlencur : s.current_player_index <
      (applyDamageToOthers s.players s.current_player_index r.2).length := by
    rw [applyDamageToOthers_length]; exact hcur
  refine ⟨assignDamagePhase s p,
    { p with battlefield := (destroyLoop p.battlefield idxs []).1,
             graveyard := p.graveyard ++ (destroyLoop p.battlefield idxs []).2 },
    by simp [stepGame, hstep, hp], ?_, ?_, ?_⟩
  · exact List.get?_set_eq_of_lt _ hlencur
  · exact List.mem_append_right _ hdi
  · exact List.mem_append_right _ hdj

/-- Witness for C3 at a concrete mutually lethal 2/2-vs-2/2 block. -/
theorem c3_mutual_destruction_witness :
    c3State.step = GameStep.AssignDamage ∧
      (0 : Nat) ∈ c3State.attacking_creatures ∧
      blockedBy c3State.blocking_map 0 = some 1 ∧
      (∃ s' p', stepGame c3State = some s' ∧ s'.currentPlayer? = some p' ∧
        (mkPlayer [bear0, bear0] []).battlefield.get ⟨0, by decide⟩ ∈ p'.graveyard ∧
        (mkPlayer [bear0, bear0] []).battlefield.get ⟨1, by decide⟩ ∈ p'.graveyard) :=
  ⟨rfl, by decide, by decide,
    c3_mutual_destruction c3State rfl (mkPlayer [bear0, bear0] []) rfl 0 1
      (by decide) (by decide) (by decide) (by decide) (by decide) (by decide)⟩

/-! ## Auto-play Main phase (C5) -/

/-- C5 counterexample: stepping `c5State` (one fragment-free Land on the
battlefield, a cost-1 creature in hand) casts the creature — the hand
empties and a summoning-sick creature appears — yet the land reported
untapped before payment is still untapped afterwards: the payment loop
"tapped" it with a no-op `set_tapped`, so zero (not exactly `cost = 1`)
untapped lands were tapped. -/
theorem c5_counterexample :
    creatureCost1.cost = 1 ∧
      ((stepGame c5State).bind GameState.currentPlayer?).map
          (fun p => (p.hand.length, p.battlefield.map fun c =>
            (is_type c CardType.Land, is_tapped c, is_creature c, has_summoning_sickness c))) =
        some (0, [(true, false, false, false), (false, false, true, true)]) := by
  constructor
  · rfl
  · decide

theorem availableMana_cons (c : Card) (cs : List Card) :
    availableMana (c :: cs) =
      (if (is_type c CardType.Land && !is_tapped c) = true then 1 else 0) + availableMana cs := by
  simp only [availableMana, List.filter_cons]
  split <;> simp [Nat.add_comm]

theorem tapLands_exact :
    ∀ (bf : List Card) (n : Nat),
      (∀ c ∈ bf, is_type c CardType.Land = true → is_tapped c = false →
        hasTappableFragment c = true) →
      n ≤ availableMana bf → availableMana (tapLands n bf) = availableMana bf - n := by
  intro bf
  induction bf with
  | nil =>
      intro n _ hle
      have h0 : availableMana ([] : List Card) = 0 := rfl
      rw [h0] at hle
      interval_cases n
      rfl
  | cons c cs ih =>
      intro n hprov hle
      have hprov' : ∀ d ∈ cs, is_type d CardType.Land = true → is_tapped d = false →
          hasTappableFragment d = true :=
        fun d hd => hprov d (List.mem_cons_of_mem _ hd)
      cases n with
      | zero => rfl
      | succ n =>
          by_cases hc : (is_type c CardType.Land && !is_tapped c) = true
          · have hland : is_type c CardType.Land = true := by
              revert hc; cases is_type c CardType.Land <;> simp
            have huntap : is_tapped c = false := by
              revert hc; cases is_tapped c <;> simp
            have htap := hprov c (by simp) hland huntap
            have hset : is_tapped (set_tapped c true) = true := by
              rw [is_tapped_set_tapped, if_pos htap]
            have heq : tapLands (n + 1) (c :: cs) = set_tapped c true :: tapLands n cs := by
              show (if is_type c CardType.Land && !is_tapped c then
                  set_tapped c true :: tapLands n cs else c :: tapLands (n + 1) cs) =
                set_tapped c true :: tapLands n cs
              rw [if_pos hc]
            have hle' : n ≤ availableMana cs := by
              rw [availableMana_cons, if_pos hc] at hle; omega
            have hg := ih n hprov' hle'
            have hcond2 : (is_type (set_tapped c true) CardType.Land &&
                !is_tapped (set_tapped c true)) = false := by
              rw [hset]; simp
            rw [heq, availableMana_cons, hcond2, availableMana_cons, if_pos hc, hg]
            simp only [Bool.false_eq_true, if_false]
            omega
          · have hc' : (is_type c CardType.Land && !is_tapped c) = false := by
              revert hc; cases (is_type c CardType.Land && !is_tapped c) <;> simp
            have heq : tapLands (n + 1) (c :: cs) = c :: tapLands (n + 1) cs := by
              show (if is_type c CardType.Land && !is_tapped c then
                  set_tapped c true :: tapLands n cs else c :: tapLands (n + 1) cs) =
                c :: tapLands (n + 1) cs
              rw [if_neg hc]
            have hle' : n + 1 ≤ availableMana cs := by
              rw [availableMana_cons, hc'] at hle; simpa using hle
            have hg := ih (n + 1) hprov' hle'
            rw [heq, availableMana_cons, availableMana_cons, hc', hg]
            simp only [Bool.false_eq_true, if_false]
            omega

theorem castLoop_exhausts :
    ∀ (fuel : Nat) (p : Player), p.hand.length ≤ fuel →
      ∀ c ∈ (castLoop fuel p).hand, is_creature c = true →
        availableMana (castLoop fuel p).battlefield < c.cost := by
  intro fuel
  induction fuel with
  | zero =>
      intro p hle c hc _
      have : p.hand = [] := List.length_eq_zero.mp (Nat.le_zero.mp hle)
      rw [castLoop] at hc
      rw [this] at hc
      exact absurd hc (List.not_mem_nil c)
  | succ fuel ih =>
      intro p hle c hc hcr
      cases hext : extractFirst
          (fun c => is_creature c && decide (c.cost ≤ availableMana p.battlefield)) p.hand with
      | none =>
          have hstop : castLoop (fuel + 1) p = p := by
            show (match extractFirst
                (fun c => is_creature c && decide (c.cost ≤ availableMana p.battlefield)) p.hand with
              | none => p
              | some (card, hand') =>
                  castLoop fuel
                    { p with hand := hand'
                             battlefield := tapLands (set_summoning_sickness card true).cost
                                p.battlefield ++ [set_summoning_sickness card true] }) = p
            rw [hext]
          rw [hstop] at hc ⊢
          have hall := extractFirst_eq_none.mp hext c hc
          rw [hcr] at hall
          simp at hall
          omega
      | some pr =>
          obtain ⟨card, hand'⟩ := pr
          have hstepeq : castLoop (fuel + 1) p =
              castLoop fuel
                { p with hand := hand'
                         battlefield := tapLands (set_summoning_sickness card true).cost
                            p.battlefield ++ [set_summoning_sickness card true] } := by
            show (match extractFirst
                (fun c => is_creature c && decide (c.cost ≤ availableMana p.battlefield)) p.hand with
              | none => p
              | some (card, hand') =>
                  castLoop fuel
                    { p with hand := hand'
                             battlefield := tapLands (set_summoning_sickness card true).cost
                                p.battlefield ++ [set_summoning_sickness card true] }) = _
            rw [hext]
          have hlen : hand'.length + 1 = p.hand.length := extractFirst_some_length hext
          rw [hstepeq] at hc ⊢
          exact ih _ (by simp; omega) c hc hcr

/-- C5 (amended): in the auto-play Main phase, at most one card — the first
positional Land-tagged match — is moved by the land step; creatures are then
cast greedily (first affordable creature each round) until no affordable
creature remains in hand; the payment loop consumes the first `cost`
untapped lands and taps exactly `cost` of them **provided** each consumed
land carries a genuine tappable fragment (a land without one is counted as
payment but stays untapped, since `set_tapped` is a no-op on it). -/
theorem c5_amended_main_phase (s : GameState) (hstep : s.step = GameStep.Main)
    (hauto : s.auto_play = true) (p : Player) (hp : s.currentPlayer? = some p) :
    ∃ s', stepGame s = some s' ∧ s'.step = GameStep.DeclareAttackers ∧
      s'.currentPlayer? = some (mainPhase p) ∧
      (extractFirst (fun c => is_type c CardType.Land) p.hand = none → playLand p = p) ∧
      (∀ c hand', extractFirst (fun c => is_type c CardType.Land) p.hand = some (c, hand') →
        playLand p = { p with hand := hand', battlefield := p.battlefield ++ [c] } ∧
        ∃ pre post, p.hand = pre ++ c :: post ∧ hand' = pre ++ post ∧
          is_type c CardType.Land = true ∧ ∀ x ∈ pre, is_type x CardType.Land = false) ∧
      (∀ c ∈ (mainPhase p).hand, is_creature c = true →
        availableMana (mainPhase p).battlefield < c.cost) ∧
      (∀ (bf : List Card) (n : Nat),
        (∀ c ∈ bf, is_type c CardType.Land = true → is_tapped c = false →
          hasTappableFragment c = true) →
        n ≤ availableMana bf → availableMana (tapLands n bf) = availableMana bf - n) := by
  have hcur : s.current_player_index < s.players.length := by
    by_contra hge
    have : s.players.get? s.current_player_index = none :=
      List.get?_eq_none.mpr (Nat.le_of_not_lt hge)
    rw [GameState.currentPlayer?, this] at hp
    exact Option.noConfusion hp
  refine ⟨_, by simp only [stepGame, hstep, hauto, if_true, hp, Option.map_some']; rfl,
    rfl, ?_, ?_, ?_, castLoop_exhausts _ _ (Nat.le_refl _), tapLands_exact⟩
  · show (({ s with step := GameStep.DeclareAttackers } : GameState).setCurrent
        (mainPhase p)).players.get? s.current_player_index = some (mainPhase p)
    exact List.get?_set_eq_of_lt _ (by simpa using hcur)
  · intro hnone
    unfold playLand
    rw [hnone]
  · intro c hand' hsome
    constructor
    · unfold playLand
      rw [hsome]
    · exact extractFirst_eq_some hsome

/-- Witness for the amended C5 at the concrete `c5State`. -/
theorem c5_amended_main_phase_witness :
    c5State.step = GameStep.Main ∧ c5State.auto_play = true ∧
      (∃ s', stepGame c5State = some s' ∧ s'.step = GameStep.DeclareAttackers ∧
        s'.currentPlayer? = some (mainPhase (mkPlayer [landNoTap] [creatureCost1])) ∧
        (extractFirst (fun c => is_type c CardType.Land)
            (mkPlayer [landNoTap] [creatureCost1]).hand = none →
          playLand (mkPlayer [landNoTap] [creatureCost1]) =
            mkPlayer [landNoTap] [creatureCost1]) ∧
        (∀ c hand', extractFirst (fun c => is_type c CardType.Land)
            (mkPlayer [landNoTap] [creatureCost1]).hand = some (c, hand') →
          playLand (mkPlayer [landNoTap] [creatureCost1]) =
            { mkPlayer [landNoTap] [creatureCost1] with hand := hand', battlefield := (mkPlayer [landNoTap] [creatureCost1]).battlefield ++ [c] } ∧
          ∃ pre post, (mkPlayer [landNoTap] [creatureCost1]).hand = pre ++ c :: post ∧
            hand' = pre ++ post ∧ is_type c CardType.Land = true ∧
            ∀ x ∈ pre, is_type x CardType.Land = false) ∧
        (∀ c ∈ (mainPhase (mkPlayer [landNoTap] [creatureCost1])).hand, is_creature c = true →
          availableMana (mainPhase (mkPlayer [landNoTap] [creatureCost1])).battlefield < c.cost) ∧
        (∀ (bf : List Card) (n : Nat),
          (∀ c ∈ bf, is_type c CardType.Land = true → is_tapped c = false →
            hasTappableFragment c = true) →
          n ≤ availableMana bf → availableMana (tapLands n bf) = availableMana bf - n)) :=
  ⟨rfl, rfl, c5_amended_main_phase c5State rfl rfl (mkPlayer [landNoTap] [creatureCost1]) rfl⟩

/-! ## Auto-play blocking (C1) -/

/-- C1 counterexample: in `c1State` the only non-attacking battlefield card
is a tapped 2/2 creature, and the DeclareBlockers arm assigns it as the
blocker of attacker 0 — the code never checks that a blocker is untapped
(nor that it is a creature), so the claim's "first untapped … creature"
description fails. -/
theorem c1_counterexample :
    is_tapped ((mkPlayer [bear0, bearTapped] []).battlefield.getD 1 default) = true ∧
      c1State.attacking_creatures = [0] ∧
      (stepGame c1State).map GameState.blocking_map = some [(1, 0)] :=
  ⟨by decide, rfl, by decide⟩

theorem find?_congr {p q : α → Bool} (h : ∀ x, p x = q x) :
    ∀ l : List α, l.find? p = l.find? q := by
  intro l
  induction l with
  | nil => rfl
  | cons x xs ih => simp [List.find?_cons, h x, ih]

theorem blockDecisionsGo_spec (bf : List Card) (allAtk : List Nat) :
    ∀ (l used₁ used₂ : List Nat) (acc : List (Nat × Nat)),
      (∀ x, used₁.contains x = used₂.contains x) →
      blockDecisionsGo bf allAtk l used₁ acc = acc ++ autoBlockSpecGo bf allAtk l used₂ := by
  intro l
  induction l with
  | nil => intro used₁ used₂ acc _; simp [blockDecisionsGo, autoBlockSpecGo]
  | cons a rest ih =>
      intro used₁ used₂ acc h
      by_cases hlen : bf.length ≤ a
      · rw [blockDecisionsGo, if_pos hlen, autoBlockSpecGo, if_pos hlen]
        exact ih used₁ used₂ acc h
      · rw [blockDecisionsGo, if_neg hlen, autoBlockSpecGo, if_neg hlen]
        have hfind : findBlockerFor bf allAtk used₁ (toughnessOf (bf.getD a default)) =
            specBlockerChoice bf allAtk used₂ a := by
          unfold findBlockerFor specBlockerChoice
          exact find?_congr (fun j => by rw [h j]) _
        simp only [hfind]
        cases hch : specBlockerChoice bf allAtk used₂ a with
        | none => exact ih used₁ used₂ acc h
        | some j =>
            have h' : ∀ x, (used₁ ++ [j]).contains x = (j :: used₂).contains x := by
              intro x
              rw [List.contains_eq_any_beq, List.any_append, ← List.contains_eq_any_beq,
                ← List.contains_eq_any_beq, h x, List.contains_cons]
              by_cases hxj : x = j <;> simp [hxj, Bool.or_comm]
            show blockDecisionsGo bf allAtk rest (used₁ ++ [j]) (acc ++ [(j, a)]) =
              acc ++ ((j, a) :: autoBlockSpecGo bf allAtk rest (j :: used₂))
            rw [ih (used₁ ++ [j]) (j :: used₂) (acc ++ [(j, a)]) h']
            simp

theorem autoBlockSpecGo_keys (bf : List Card) (allAtk : List Nat) :
    ∀ (l used : List Nat),
      (autoBlockSpecGo bf allAtk l used).Pairwise (fun e e' => e.1 ≠ e'.1) ∧
      ∀ e ∈ autoBlockSpecGo bf allAtk l used, used.contains e.1 = false := by
  intro l
  induction l with
  | nil => intro used; simp [autoBlockSpecGo]
  | cons a rest ih =>
      intro used
      by_cases hlen : bf.length ≤ a
      · rw [autoBlockSpecGo, if_pos hlen]
        exact ih used
      · rw [autoBlockSpecGo, if_neg hlen]
        cases hch : specBlockerChoice bf allAtk used a with
        | none => exact ih used
        | some j =>
            have hj : ((List.range bf.length).find? fun j =>
                !used.contains j && !allAtk.contains j &&
                  decide (toughnessOf (bf.getD a default) ≤ powerOf (bf.getD j default))) =
                some j := hch
            have hpred := List.find?_some hj
            have hjused : used.contains j = false := by
              revert hpred
              cases used.contains j <;> simp
            rcases ih (j :: used) with ⟨hpw, hmem⟩
            constructor
            · refine List.pairwise_cons.mpr ⟨?_, hpw⟩
              intro e' he'
              have hc := hmem e' he'
              intro heq
              rw [← heq, List.contains_cons] at hc
              simp at hc
            · intro e he
              rcases List.mem_cons.mp he with rfl | he'
              · exact hjused
              · have hc := hmem e he'
                rw [List.contains_cons] at hc
                cases hcb : used.contains e.1
                · rfl
                · rw [hcb] at hc; simp at hc

theorem foldl_mapInsert_eq_append :
    ∀ (l m : List (Nat × Nat)),
      (∀ e ∈ l, (m.any fun x => x.1 == e.1) = false) →
      l.Pairwise (fun e e' => e.1 ≠ e'.1) →
      l.foldl (fun m e => mapInsert m e.1 e.2) m = m ++ l := by
  intro l
  induction l with
  | nil => intro m _ _; simp
  | cons e rest ih =>
      intro m hnotin hpw
      rcases List.pairwise_cons.mp hpw with ⟨hhead, htail⟩
      have h1 : mapInsert m e.1 e.2 = m ++ [(e.1, e.2)] := by
        unfold mapInsert
        rw [if_neg (by rw [hnotin e (by simp)]; simp)]
      have h2 : ∀ e' ∈ rest, ((m ++ [(e.1, e.2)]).any fun x => x.1 == e'.1) = false := by
        intro e' he'
        rw [List.any_append]
        have hm := hnotin e' (List.mem_cons_of_mem _ he')
        have hne := hhead e' he'
        simp [hm, hne]
      rw [List.foldl_cons, h1, ih (m ++ [(e.1, e.2)]) h2 htail, List.append_assoc]
      rfl

/-- C1 (amended): for each attacker in stored order (stale positions
skipped), auto-blocking assigns the first not-yet-consumed, non-attacking
battlefield card — tapped or not, creature or not — whose creature power
(0 without stats) meets the attacker's creature toughness (0 without
stats), consuming it; the resulting map equals the spec-side greedy
description, its blocker keys are pairwise distinct (no double-blocking),
and attackers without such a card stay unblocked. -/
theorem c1_amended_blockers (s : GameState) (hstep : s.step = GameStep.DeclareBlockers)
    (hauto : s.auto_play = true) (p : Player) (hp : s.currentPlayer? = some p) :
    ∃ s', stepGame s = some s' ∧ s'.step = GameStep.AssignDamage ∧
      s'.blocking_map = autoBlockSpec p.battlefield s.attacking_creatures ∧
      s'.blocking_map.Pairwise (fun e e' => e.1 ≠ e'.1) := by
  have hdec : blockDecisions p.battlefield s.attacking_creatures =
      autoBlockSpec p.battlefield s.attacking_creatures := by
    unfold blockDecisions autoBlockSpec
    exact blockDecisionsGo_spec p.battlefield s.attacking_creatures
      s.attacking_creatures [] [] [] (fun _ => rfl)
  have hkeys := autoBlockSpecGo_keys p.battlefield s.attacking_creatures
    s.attacking_creatures []
  have hmap : (declareBlockersAuto s p).blocking_map =
      autoBlockSpec p.battlefield s.attacking_creatures := by
    show (blockDecisions p.battlefield s.attacking_creatures).foldl
        (fun m e => mapInsert m e.1 e.2) [] = _
    rw [hdec]
    exact foldl_mapInsert_eq_append _ [] (by simp) hkeys.1
  refine ⟨declareBlockersAuto s p,
    by simp only [stepGame, hstep, hauto, if_true, hp, Option.map_some'], rfl, hmap, ?_⟩
  rw [hmap]
  exact hkeys.1

/-- Witness for the amended C1 at the concrete `c1State`. -/
theorem c1_amended_blockers_witness :
    c1State.step = GameStep.DeclareBlockers ∧ c1State.auto_play = true ∧
      (∃ s', stepGame c1State = some s' ∧ s'.step = GameStep.AssignDamage ∧
        s'.blocking_map = autoBlockSpec (mkPlayer [bear0, bearTapped] []).battlefield
          c1State.attacking_creatures ∧
        s'.blocking_map.Pairwise (fun e e' => e.1 ≠ e'.1)) :=
  ⟨rfl, rfl,
    c1_amended_blockers c1State rfl rfl (mkPlayer [bear0, bearTapped] []) rfl⟩

/-! ## Summoning sickness and same-turn combat damage (C2) -/

set_option maxHeartbeats 1000000 in
/-- C2 counterexample: a reachable 2-player trace over a deck of nine 0-cost
2/2 creatures (identity shuffle). On turn 3 the active player's Main casts a
ninth creature (battlefield grows 8 → 9, the new card at position 8 is
summoning-sick), DeclareBlockers assigns exactly that sick creature as the
blocker of attacker 0, and the same turn's AssignDamage destroys both
attacker 0 and the blocker (battlefield 9 → 7, graveyard 2): the creature
cast this turn dealt the lethal combat damage that destroyed attacker 0 in
this turn's AssignDamage. The life totals [20, 6] confirm it: only the 7
unblocked attackers' 14 damage reached the opponent. -/
theorem c2_counterexample :
    ((stepN 22 c2Init).map fun s => (s.step, s.turns)) = some (GameStep.Main, 3) ∧
      ((stepN 22 c2Init).bind GameState.currentPlayer?).map (fun p => p.battlefield.length) =
        some 8 ∧
      ((stepN 23 c2Init).bind GameState.currentPlayer?).map
          (fun p => (p.battlefield.length, p.battlefield.map has_summoning_sickness)) =
        some (9, [false, false, false, false, false, false, false, false, true]) ∧
      ((stepN 25 c2Init).map fun s => (s.step, s.turns, s.blocking_map)) =
        some (GameStep.AssignDamage, 3, [(8, 0)]) ∧
      ((stepN 26 c2Init).bind GameState.currentPlayer?).map
          (fun p => (p.battlefield.length, p.graveyard.length)) = some (7, 2) ∧
      ((stepN 26 c2Init).map fun s => s.players.map Player.life) = some [20, 6] := by
  refine ⟨?_, ?_, ?_, ?_, ?_, ?_⟩ <;> decide

theorem tapLands_length : ∀ (bf : List Card) (n : Nat), (tapLands n bf).length = bf.length := by
  intro bf
  induction bf with
  | nil => intro n; cases n <;> rfl
  | cons c cs ih =>
      intro n
      cases n with
      | zero => rfl
      | succ n =>
          show (if is_type c CardType.Land && !is_tapped c then
              set_tapped c true :: tapLands n cs else c :: tapLands (n + 1) cs).length = _
          split <;> simp [ih]

theorem tapLands_getElem?_sick :
    ∀ (bf : List Card) (n k : Nat),
      ((tapLands n bf)[k]?).map sickOrStatless = (bf[k]?).map sickOrStatless := by
  intro bf
  induction bf with
  | nil => intro n k; cases n <;> rfl
  | cons c cs ih =>
      intro n k
      cases n with
      | zero => rfl
      | succ n =>
          have hsplit : tapLands (n + 1) (c :: cs) =
              (if is_type c CardType.Land && !is_tapped c then
                set_tapped c true :: tapLands n cs else c :: tapLands (n + 1) cs) := rfl
          rw [hsplit]
          split
          · cases k with
            | zero => simp [sickOrStatless_set_tapped]
            | succ k => simpa using ih n k
          · cases k with
            | zero => simp
            | succ k => simpa using ih (n + 1) k

theorem castLoop_sick_suffix :
    ∀ (fuel : Nat) (q : Player) (n : Nat),
      (∀ k, n ≤ k → ∀ c, q.battlefield[k]? = some c → sickOrStatless c = true) →
      ∀ k, n ≤ k → ∀ c, (castLoop fuel q).battlefield[k]? = some c → sickOrStatless c = true := by
  intro fuel
  induction fuel with
  | zero =>
      intro q n hq k hk c hc
      exact hq k hk c hc
  | succ fuel ih =>
      intro q n hq k hk c hc
      cases hext : extractFirst
          (fun c => is_creature c && decide (c.cost ≤ availableMana q.battlefield)) q.hand with
      | none =>
          have hstop : castLoop (fuel + 1) q = q := by
            show (match extractFirst
                (fun c => is_creature c && decide (c.cost ≤ availableMana q.battlefield)) q.hand with
              | none => q
              | some (card, hand') =>
                  castLoop fuel
                    { q with hand := hand'
                             battlefield := tapLands (set_summoning_sickness card true).cost
                                q.battlefield ++ [set_summoning_sickness card true] }) = q
            rw [hext]
          rw [hstop] at hc
          exact hq k hk c hc
      | some pr =>
          obtain ⟨card, hand'⟩ := pr
          have hstepeq : castLoop (fuel + 1) q =
              castLoop fuel
                { q with hand := hand'
                         battlefield := tapLands (set_summoning_sickness card true).cost
                            q.battlefield ++ [set_summoning_sickness card true] } := by
            show (match extractFirst
                (fun c => is_creature c && decide (c.cost ≤ availableMana q.battlefield)) q.hand with
              | none => q
              | some (card, hand') =>
                  castLoop fuel
                    { q with hand := hand'
                             battlefield := tapLands (set_summoning_sickness card true).cost
                                q.battlefield ++ [set_summoning_sickness card true] }) = _
            rw [hext]
          rw [hstepeq] at hc
          refine ih _ n ?_ k hk c hc
          intro k' hk' c' hc'
          have hlen : (tapLands (set_summoning_sickness card true).cost q.battlefield).length =
              q.battlefield.length := tapLands_length _ _
          by_cases hk'' : k' < q.battlefield.length
          · rw [List.getElem?_append_left (by rw [hlen]; exact hk'')] at hc'
            have hmap := tapLands_getElem?_sick q.battlefield
              (set_summoning_sickness card true).cost k'
            rw [hc'] at hmap
            cases hbf : q.battlefield[k']? with
            | none => rw [hbf] at hmap; exact absurd hmap (by simp)
            | some c0 =>
                rw [hbf] at hmap
                have heq : sickOrStatless c' = sickOrStatless c0 := by
                  simpa using hmap
                rw [heq]
                exact hq k' hk' c0 hbf
          · by_cases hk3 : k' = q.battlefield.length
            · subst hk3
              have := List.getElem?_concat_length
                (tapLands (set_summoning_sickness card true).cost q.battlefield)
                (set_summoning_sickness card true)
              rw [hlen] at this
              rw [this] at hc'
              have : c' = set_summoning_sickness card true := by
                simpa using hc'.symm
              rw [this]
              exact sickOrStatless_set_sick_true card
            · have hge : (tapLands (set_summoning_sickness card true).cost q.battlefield ++
                  [set_summoning_sickness card true]).length ≤ k' := by
                rw [List.length_append, hlen]
                show q.battlefield.length + 1 ≤ k'
                omega
              rw [List.getElem?_eq_none hge] at hc'
              exact absurd hc' (by simp)

theorem playLand_bf_length (p : Player) :
    (playLand p).battlefield.length =
      p.battlefield.length + (if p.hand.any fun c => is_type c CardType.Land then 1 else 0) := by
  cases hext : extractFirst (fun c => is_type c CardType.Land) p.hand with
  | none =>
      have hall := extractFirst_eq_none.mp hext
      have hany : (p.hand.any fun c => is_type c CardType.Land) = false := by
        cases hany : p.hand.any fun c => is_type c CardType.Land
        · rfl
        · rcases List.any_eq_true.mp hany with ⟨x, hx, hqx⟩
          rw [hall x hx] at hqx
          exact absurd hqx (by simp)
      rw [hany]
      unfold playLand
      rw [hext]
      simp
  | some pr =>
      obtain ⟨c, hand'⟩ := pr
      rcases extractFirst_eq_some hext with ⟨pre, post, hhand, _, hqc, _⟩
      have hany : (p.hand.any fun c => is_type c CardType.Land) = true :=
        List.any_eq_true.mpr ⟨c, by rw [hhand]; simp, hqc⟩
      rw [hany]
      unfold playLand
      rw [hext]
      simp

theorem mem_attackerIndices {bf : List Card} {i : Nat} :
    i ∈ attackerIndices bf ↔ i < bf.length ∧
      (is_type (bf.getD i default) CardType.Creature &&
        !has_summoning_sickness (bf.getD i default) && !is_tapped (bf.getD i default)) = true := by
  simp [attackerIndices, List.mem_filter, List.mem_range]

/-- C2 (amended): in auto-play, every attacker declared in a turn's
DeclareAttackers is free of summoning sickness, and each one either occupies
a battlefield position that already existed when Main's creature-casting
loop started — the battlefield as Main began plus at most one card moved by
the land step, so a dual Land+Creature-tagged card played as the land can
attack with full power in the same turn — or has no creature stats at all
and attacks with power 0. Hence a creature carrying creature stats that is
cast by the casting loop is summoning-sick and never attacks (and so never
deals attacker combat damage) in the turn it was cast. A creature cast
during a turn CAN, however, be assigned as a blocker from the active
player's own battlefield and destroy an attacker in that same turn's
AssignDamage (see the counterexample). -/
theorem c2_amended_no_sick_attacker (s : GameState) (hstep : s.step = GameStep.Main)
    (hauto : s.auto_play = true) (p : Player) (hp : s.currentPlayer? = some p) :
    ∃ s1 s2, stepGame s = some s1 ∧ stepGame s1 = some s2 ∧
      s2.attacking_creatures = attackerIndices (mainPhase p).battlefield ∧
      (∀ i ∈ s2.attacking_creatures,
        has_summoning_sickness ((mainPhase p).battlefield.getD i default) = false) ∧
      (∀ i ∈ s2.attacking_creatures,
        i < p.battlefield.length +
            (if p.hand.any fun c => is_type c CardType.Land then 1 else 0) ∨
        (creature_stats ((mainPhase p).battlefield.getD i default) = none ∧
          powerOf ((mainPhase p).battlefield.getD i default) = 0)) := by
  have hcur : s.current_player_index < s.players.length := by
    by_contra hge
    have : s.players.get? s.current_player_index = none :=
      List.get?_eq_none.mpr (Nat.le_of_not_lt hge)
    rw [GameState.currentPlayer?, this] at hp
    exact Option.noConfusion hp
  have hp1 : (({ s with step := GameStep.DeclareAttackers } : GameState).setCurrent
      (mainPhase p)).currentPlayer? = some (mainPhase p) :=
    List.get?_set_eq_of_lt _ (by simpa using hcur)
  have hauto1 : (({ s with step := GameStep.DeclareAttackers } : GameState).setCurrent
      (mainPhase p)).auto_play = true := hauto
  have hstep1 : (({ s with step := GameStep.DeclareAttackers } : GameState).setCurrent
      (mainPhase p)).step = GameStep.DeclareAttackers := rfl
  refine ⟨({ s with step := GameStep.DeclareAttackers } : GameState).setCurrent (mainPhase p),
    declareAttackersAuto
      (({ s with step := GameStep.DeclareAttackers } : GameState).setCurrent (mainPhase p))
      (mainPhase p),
    by simp only [stepGame, hstep, hauto, if_true, hp, Option.map_some'],
    by simp only [stepGame, hstep1, hauto1, if_true, hp1, Option.map_some'],
    rfl, ?_, ?_⟩
  · intro i hi
    have hi' : i ∈ attackerIndices (mainPhase p).battlefield := hi
    have hmem := mem_attackerIndices.mp hi'
    rcases hmem with ⟨_, hpred⟩
    revert hpred
    cases has_summoning_sickness ((mainPhase p).battlefield.getD i default) <;> simp
  · intro i hi
    have hi' : i ∈ attackerIndices (mainPhase p).battlefield := hi
    rcases mem_attackerIndices.mp hi' with ⟨hlt, hpred⟩
    by_cases hbound : i < p.battlefield.length +
        (if p.hand.any fun c => is_type c CardType.Land then 1 else 0)
    · exact Or.inl hbound
    · have hbase : ∀ k, (playLand p).battlefield.length ≤ k → ∀ c,
          (playLand p).battlefield[k]? = some c → sickOrStatless c = true := by
        intro k hk c hc
        rw [List.getElem?_eq_none hk] at hc
        exact absurd hc (by simp)
      have hsuffix := castLoop_sick_suffix (playLand p).hand.length (playLand p)
        (playLand p).battlefield.length hbase i
        (by rw [playLand_bf_length]; omega)
      have hsome : (mainPhase p).battlefield[i]? =
          some ((mainPhase p).battlefield.getD i default) := by
        rw [List.getElem?_eq_getElem hlt, getD_eq_get default hlt]
        simp [List.get_eq_getElem]
      have hsick := hsuffix _ hsome
      have hns : has_summoning_sickness ((mainPhase p).battlefield.getD i default) = false := by
        revert hpred
        cases has_summoning_sickness ((mainPhase p).battlefield.getD i default) <;> simp
      rw [sickOrStatless, hns] at hsick
      simp only [Bool.false_or] at hsick
      have hstats := Option.isNone_iff_eq_none.mp hsick
      refine Or.inr ⟨hstats, ?_⟩
      unfold powerOf
      rw [hstats]
      rfl

/-- Witness for the amended C2 at the concrete `c5State` (a Main-phase
auto-play state). -/
theorem c2_amended_no_sick_attacker_witness :
    c5State.step = GameStep.Main ∧ c5State.auto_play = true ∧
      (∃ s1 s2, stepGame c5State = some s1 ∧ stepGame s1 = some s2 ∧
        s2.attacking_creatures =
          attackerIndices (mainPhase (mkPlayer [landNoTap] [creatureCost1])).battlefield ∧
        (∀ i ∈ s2.attacking_creatures,
          has_summoning_sickness
            ((mainPhase (mkPlayer [landNoTap] [creatureCost1])).battlefield.getD i default) =
              false) ∧
        (∀ i ∈ s2.attacking_creatures,
          i < (mkPlayer [landNoTap] [creatureCost1]).battlefield.length +
              (if (mkPlayer [landNoTap] [creatureCost1]).hand.any fun c =>
                is_type c CardType.Land then 1 else 0) ∨
          (creature_stats
              ((mainPhase (mkPlayer [landNoTap] [creatureCost1])).battlefield.getD i default) =
                none ∧
            powerOf
              ((mainPhase (mkPlayer [landNoTap] [creatureCost1])).battlefield.getD i default) =
                0))) :=
  ⟨rfl, rfl, c2_amended_no_sick_attacker c5State rfl rfl (mkPlayer [landNoTap] [creatureCost1]) rfl⟩

end TcgSim
